import Mathlib

/-!
GOL: a toroidal cellular automaton (`src/GOL.cpp`).

A shallow embedding of the classes `Field`, `PresetParser` and `Logic` of
`src/GOL.cpp`, followed by theorems about them.

Conventions of the embedding
* C++ `int` values are mathematical integers (`Int`).  `/` and `%` of C++ truncate
  towards zero, so they are `Int.tdiv` and `Int.tmod`.  None of the arithmetic of
  `normalizeX`, `activeCellSum` or `checkB` can leave the range of `int` for
  arguments that are in it.
* The heap block `bool** _field` is a function from a row index and a column
  index to the stored `bool`; a write replaces the value at one index pair.
* A `std::string` is the list of its `char`s.
* A counted loop `for (int i = 0; i < n; i++)` whose body leaves `n` alone is a
  left fold over `List.range n.toNat`.
* A C++ exception is a value of `Exn`; a member function that can throw returns
  an `Outcome`, which also carries the state reached when the exception left.
-/

namespace GOL

/-! ## Field -/

/-- The class `Field`: the members `n`, `m` and the storage `_field`. -/
structure Field where
  n : Int
  m : Int
  _field : Int → Int → Bool

/-- The assignment `_field[i][j] = val` on the raw storage. -/
def store (mem : Int → Int → Bool) (i j : Int) (val : Bool) : Int → Int → Bool :=
  fun a b => if a = i ∧ b = j then val else mem a b

/-- `Field::createField(n, m)`, reached from the constructor `Field(n, m)`: the
object that it leaves when its allocations succeed (`Field.construct` adds the
allocations).  `new bool[m]` does not initialise the rows, so the content of the
fresh storage is a parameter. -/
def Field.createField (n m : Int) (heap : Int → Int → Bool) : Field :=
  { n := n, m := m, _field := heap }

/-- `Field::getN`. -/
def Field.getN (f : Field) : Int := f.n

/-- `Field::getM`. -/
def Field.getM (f : Field) : Int := f.m

/-- `Field::normalizeX(x, is_y)`.  The local `sign` of the source is assigned and
never read, so it has no counterpart here.  With a border of zero the C++ division is
undefined; everything proved about this function assumes a positive border. -/
def Field.normalizeX (f : Field) (x : Int) (is_y : Bool) : Int :=
  let border := if is_y then f.m else f.n
  let res := x - border * Int.tdiv x border
  if res < 0 then res + border else res

/-- `Field::normalizeY(y)`. -/
def Field.normalizeY (f : Field) (y : Int) : Int := f.normalizeX y true

/-- `Field::getAt(x, y)`. -/
def Field.getAt (f : Field) (x y : Int) : Bool :=
  f._field (f.normalizeX x false) (f.normalizeY y)

/-- `Field::setAt(x, y, val)`. -/
def Field.setAt (f : Field) (x y : Int) (val : Bool) : Field :=
  { f with _field := store f._field (f.normalizeX x false) (f.normalizeY y) val }

/-- `Field::Clear()`: the two nested loops write `false` to every stored cell. -/
def Field.Clear (f : Field) : Field :=
  let mem := (List.range f.n.toNat).foldl
    (fun mem i => (List.range f.m.toNat).foldl
      (fun mem j => store mem (Int.ofNat i) (Int.ofNat j) false) mem)
    f._field
  { f with _field := mem }

/-- `Field::DefaultPreset()`. -/
def Field.DefaultPreset (f : Field) : Field :=
  let f := f.Clear
  let f := f.setAt 0 (-1) true
  let f := f.setAt 1 0 true
  let f := f.setAt (-1) 1 true
  let f := f.setAt 0 1 true
  f.setAt 1 1 true

/-! ## Strings, streams and `sscanf` -/

/-- The struct `CellOp`: "set `val` at `(x, y)`". -/
structure CellOp where
  x : Int
  y : Int
  val : Bool
deriving DecidableEq

/-- The exceptions that the code can raise. -/
inductive Exn where
  /-- Thrown by `PresetParser::Parse`: `std::invalid_argument("Input file not found")`. -/
  | invalid_argument (what : List Char)
  /-- Thrown by `std::string::substr(pos)` when `pos > size()`: `std::out_of_range`. -/
  | out_of_range
  /-- Thrown by a failing `new T[len]`: a `std::bad_alloc`, the class itself or
  `std::bad_array_new_length`, which derives from it. -/
  | bad_alloc
deriving DecidableEq

/-- How a call that may throw ends; both ways carry the state it has reached. -/
inductive Outcome (σ : Type) where
  | returned (st : σ)
  | threw (e : Exn) (st : σ)

/-- The state carried by an outcome. -/
def Outcome.state {σ : Type} : Outcome σ → σ
  | .returned st => st
  | .threw _ st => st

/-- The exception that ended the call, if one did. -/
def Outcome.thrown {σ : Type} : Outcome σ → Option Exn
  | .returned _ => none
  | .threw e _ => some e

/-- `std::string::operator[](pos)` for `pos <= size()`: the character at `pos`, and
the terminating `'\0'` at `pos == size()`. -/
def charAt (line : List Char) (pos : Nat) : Char := line.getD pos (Char.ofNat 0)

/-- `std::string::substr(pos)`: throws `std::out_of_range` when `pos > size()`. -/
def substr (line : List Char) (pos : Nat) : Except Exn (List Char) :=
  if pos > line.length then .error Exn.out_of_range else .ok (line.drop pos)

/-- `isspace` in the "C" locale. -/
def isspace (c : Char) : Bool :=
  c = ' ' || c = '\t' || c = '\n' || c = Char.ofNat 11 || c = Char.ofNat 12 || c = '\r'

/-- `isdigit`. -/
def isdigit (c : Char) : Bool := decide ('0' ≤ c) && decide (c ≤ '9')

/-- The value of a decimal digit character. -/
def digitVal (c : Char) : Int := (c.toNat : Int) - 48

/-- Reads the longest run of decimal digits: the accumulated value, the number of
digits read, and the input that is left. -/
def readDigits : List Char → Int → Nat → Int × Nat × List Char
  | [], acc, k => (acc, k, [])
  | c :: cs, acc, k =>
    if isdigit c then readDigits cs (acc * 10 + digitVal c) (k + 1) else (acc, k, c :: cs)

/-- A decimal integer as `%d` and `operator>>(int&)` accept it: an optional sign and
at least one digit.  The value and the input left, or `none` when there is no digit. -/
def readInt (inp : List Char) : Option (Int × List Char) :=
  let negative : Bool := decide (inp.head? = some '-')
  let signed : Bool := negative || decide (inp.head? = some '+')
  let r := readDigits (if signed then inp.tail else inp) 0 0
  if r.2.1 = 0 then none else some (if negative then -r.1 else r.1, r.2.2)

/-- The least `int`. -/
def INT_MIN : Int := -2147483648

/-- The greatest `int`. -/
def INT_MAX : Int := 2147483647

/-- A `std::stringstream` being read: the characters not yet consumed and the
state bits `failbit` and `eofbit` (nothing here sets `badbit`). -/
structure IStream where
  buf : List Char
  failbit : Bool
  eofbit : Bool

/-- The expression `stream >> x` for an `int x`: the stream afterwards and the value
extracted, `none` when the extraction failed.  The sentry fails on a stream that is
not good; leading white space is skipped; reaching the end of the characters sets
`eofbit`; a missing number or a value outside `int` sets `failbit`. -/
def IStream.extractInt (st : IStream) : IStream × Option Int :=
  if st.failbit || st.eofbit then ({ st with failbit := true }, none)
  else
    match st.buf.dropWhile isspace with
    | [] => ({ buf := [], failbit := true, eofbit := true }, none)
    | c :: cs =>
      match readInt (c :: cs) with
      | none => ({ buf := c :: cs, failbit := true, eofbit := false }, none)
      | some (v, rest) =>
        if v < INT_MIN ∨ INT_MAX < v then
          ({ buf := rest, failbit := true, eofbit := rest.isEmpty }, none)
        else ({ buf := rest, failbit := false, eofbit := rest.isEmpty }, some v)

/-- The directives of a `scanf` format, as far as `"#R B%d/S%d"` uses them. -/
inductive Directive where
  /-- An ordinary character, which must be the next input character. -/
  | lit (c : Char)
  /-- White space in the format: skips any amount of white space in the input. -/
  | space
  /-- The conversion `%d`. -/
  | int

/-- The function `sscanf` on a list of directives: the return value and the values
assigned, in order.  An input failure (end of input) before the first conversion
returns `EOF`, which is `-1`; every other stop returns the number of assignments.
A numeral outside `int` is undefined behaviour in C; the value kept here is the
numeral's. -/
def sscanf : List Directive → List Char → List Int → Int × List Int
  | [], _, vals => (vals.length, vals)
  | Directive.lit c :: ds, inp, vals =>
    match inp with
    | [] => (if vals.isEmpty then -1 else vals.length, vals)
    | a :: rest => if a = c then sscanf ds rest vals else (vals.length, vals)
  | Directive.space :: ds, inp, vals => sscanf ds (inp.dropWhile isspace) vals
  | Directive.int :: ds, inp, vals =>
    match inp.dropWhile isspace with
    | [] => (if vals.isEmpty then -1 else vals.length, vals)
    | c :: cs =>
      match readInt (c :: cs) with
      | none => (vals.length, vals)
      | some (v, rest) => sscanf ds rest (vals ++ [v])

/-- The format string `"#R B%d/S%d"`. -/
def formatR : List Directive :=
  [Directive.lit '#', Directive.lit 'R', Directive.space, Directive.lit 'B', Directive.int,
   Directive.lit '/', Directive.lit 'S', Directive.int]

/-! ## PresetParser -/

/-- The class `PresetParser`. -/
structure PresetParser where
  _inputFile : List Char
  _presetName : List Char
  _presetComment : List Char
  b : Int
  s : Int
  parsed : Bool

/-- The constructor `PresetParser(std::string str)`.  The members `b` and `s` have
no initialiser, so what they hold is a parameter. -/
def PresetParser.create (str : List Char) (b0 s0 : Int) : PresetParser :=
  { _inputFile := str, _presetName := [], _presetComment := [], b := b0, s := s0,
    parsed := false }

/-- `PresetParser::parseR(line)`: `sscanf` writes `b` after the first conversion
and `s` after the second. -/
def PresetParser.parseR (p : PresetParser) (line : List Char) : Bool × PresetParser :=
  let r := sscanf formatR line []
  let p := match r.2 with
    | [] => p
    | [vb] => { p with b := vb }
    | vb :: vs :: _ => { p with b := vb, s := vs }
  (r.1 == 2, p)

/-- `PresetParser::parseN(line)`.  When `substr` throws, the assignment to
`_presetComment` has not happened. -/
def PresetParser.parseN (p : PresetParser) (line : List Char) :
    Except Exn (Bool × PresetParser) :=
  match substr line 3 with
  | .error e => .error e
  | .ok comment => .ok (decide (comment.length > 0), { p with _presetComment := comment })

/-- `PresetParser::parseParameter(line)`. -/
def PresetParser.parseParameter (p : PresetParser) (line : List Char) :
    Except Exn (Bool × PresetParser) :=
  if charAt line 1 = 'R' then .ok (p.parseR line)
  else if charAt line 1 = 'N' then p.parseN line
  else .ok (false, p)

/-- `PresetParser::parseCell(line, ops_q)`.  `x` and `y` are read only when neither
extraction failed, and then both extractions have produced a value. -/
def PresetParser.parseCell (line : List Char) (ops_q : List CellOp) : Bool × List CellOp :=
  let linestream : IStream := { buf := line, failbit := false, eofbit := false }
  let rx := linestream.extractInt
  let ry := rx.1.extractInt
  if ry.1.failbit then (false, ops_q)
  else (true, ops_q ++ [{ x := rx.2.getD 0, y := ry.2.getD 0, val := true }])

/-- One line written to `std::cout` by `Parse`:
`"[Line " << count << "] Failed to parse: " << line`. -/
structure Warning where
  count : Int
  line : List Char
deriving DecidableEq

/-- What `Parse` works on: the parser object, the queue it was handed, and the
text it has written to `std::cout`. -/
structure ParseState where
  prepar : PresetParser
  ops_q : List CellOp
  cout : List Warning

/-- The `while (std::getline(infile, line))` loop of `Parse`, over the lines that
`getline` still has to deliver. -/
def parseLoop : List (List Char) → Int → ParseState → Outcome ParseState
  | [], _, st => .returned st
  | line :: rest, count, st =>
    let count := count + 1
    if charAt line 0 = '#' then
      match st.prepar.parseParameter line with
      | .error e => .threw e st
      | .ok (result, p) =>
        let st := { st with prepar := p }
        parseLoop rest count
          (if !result then { st with cout := st.cout ++ [{ count := count, line := line }] }
           else st)
    else
      let r := PresetParser.parseCell line st.ops_q
      let st := { st with ops_q := r.2 }
      parseLoop rest count
        (if !r.1 then { st with cout := st.cout ++ [{ count := count, line := line }] }
         else st)

/-- `PresetParser::Parse(ops_q)`.  `disk` gives, for a file name, the lines that
successive `std::getline` calls deliver, or `none` when the file cannot be opened.
The first `getline` stores the name; on a file without lines it leaves the name
empty. -/
def PresetParser.Parse (p : PresetParser) (disk : List Char → Option (List (List Char)))
    (ops_q : List CellOp) (cout : List Warning) : Outcome ParseState :=
  match disk p._inputFile with
  | none =>
    .threw (Exn.invalid_argument "Input file not found".toList)
      { prepar := p, ops_q := ops_q, cout := cout }
  | some lines =>
    let p := { p with _presetName := lines.headD [] }
    match parseLoop lines.tail 0 { prepar := p, ops_q := ops_q, cout := cout } with
    | .threw e st => .threw e st
    | .returned st => .returned { st with prepar := { st.prepar with parsed := true } }

/-- `PresetParser::GetB`. -/
def PresetParser.GetB (p : PresetParser) : Int := p.b

/-- `PresetParser::GetS`. -/
def PresetParser.GetS (p : PresetParser) : Int := p.s

/-! ## Logic -/

/-- The class `Logic`.  `_field_ptr` points to a `Field` that the engine alone
uses, so the field is held by value. -/
structure Logic where
  _field_ptr : Field
  ops_q : List CellOp
  b : Int
  s : Int

/-- The constructor `Logic(Field* field)`: the default rule B3/S23. -/
def Logic.create (field : Field) : Logic :=
  { _field_ptr := field, ops_q := [], b := 3, s := 23 }

/-- The constructor `Logic(Field* field, int b, int s)`. -/
def Logic.createBS (field : Field) (b s : Int) : Logic :=
  { _field_ptr := field, ops_q := [], b := b, s := s }

/-- `Logic::activeCellSum(x, y)`. -/
def Logic.activeCellSum (l : Logic) (x y : Int) : Int :=
  [x - 1, x, x + 1].foldl
    (fun sum i => [y - 1, y, y + 1].foldl
      (fun sum j =>
        if i = x ∧ j = y then sum
        else sum + (if l._field_ptr.getAt i j then 1 else 0))
      sum)
    0

/-- The `while (_b > 0)` loop of `checkB`, with a bound on the number of rounds. -/
def checkLoop : Nat → Int → Int → Bool
  | 0, _, _ => false
  | fuel + 1, _b, sum =>
    if _b > 0 then
      if Int.tmod _b 10 = sum then true else checkLoop fuel (Int.tdiv _b 10) sum
    else false

/-- `Logic::checkB(sum, check_s)`.  Every round divides a positive `_b` by ten, so
`_b.toNat` rounds are more than the loop can take (`checkLoop_fuel`). -/
def Logic.checkB (l : Logic) (sum : Int) (check_s : Bool) : Bool :=
  let _b := if check_s then l.s else l.b
  checkLoop _b.toNat _b sum

/-- `Logic::checkS(sum)`. -/
def Logic.checkS (l : Logic) (sum : Int) : Bool := l.checkB sum true

/-- `Logic::pushOp(x, y, val)`, on the queue. -/
def pushOp (q : List CellOp) (x y : Int) (val : Bool) : List CellOp :=
  q ++ [{ x := x, y := y, val := val }]

/-- The body of the inner loop of `scanField` for the cell `(i, j)`. -/
def Logic.scanCell (l : Logic) (q : List CellOp) (i j : Int) : List CellOp :=
  let cellSum := l.activeCellSum i j
  let alive := l._field_ptr.getAt i j
  let birth := l.checkB cellSum false
  let survive := l.checkS cellSum
  let newState := (alive && survive) || birth
  if newState != alive then pushOp q i j newState else q

/-- `Logic::scanField()`: the loops read the field and the rule and only push to
the queue. -/
def Logic.scanField (l : Logic) : Logic :=
  let q := (List.range l._field_ptr.getN.toNat).foldl
    (fun q i => (List.range l._field_ptr.getM.toNat).foldl
      (fun q j => l.scanCell q (Int.ofNat i) (Int.ofNat j)) q)
    l.ops_q
  { l with ops_q := q }

/-- The loop of `applyCellOpsQueue`: the front operation is applied and popped
until the queue is empty. -/
def applyLoop : List CellOp → Field → Field
  | [], f => f
  | op :: rest, f => applyLoop rest (f.setAt op.x op.y op.val)

/-- `Logic::applyCellOpsQueue()`. -/
def Logic.applyCellOpsQueue (l : Logic) : Logic :=
  { l with _field_ptr := applyLoop l.ops_q l._field_ptr, ops_q := [] }

/-- `Logic::Tick()`. -/
def Logic.Tick (l : Logic) : Logic := l.scanField.applyCellOpsQueue

/-- The engine, the parser it was handed, and the text on `std::cout`. -/
structure World where
  logic : Logic
  prepar : PresetParser
  cout : List Warning

/-- `Logic::LoadPreset(prepar)`.  An exception of `Parse` leaves through
`LoadPreset`, after `Clear` and before the assignments to `b` and `s`. -/
def Logic.LoadPreset (l : Logic) (prepar : PresetParser)
    (disk : List Char → Option (List (List Char))) (cout : List Warning) : Outcome World :=
  let l := { l with _field_ptr := l._field_ptr.Clear }
  match prepar.Parse disk l.ops_q cout with
  | .threw e st =>
    .threw e { logic := { l with ops_q := st.ops_q }, prepar := st.prepar, cout := st.cout }
  | .returned st =>
    let l := { l with ops_q := st.ops_q }
    let l := { l with b := st.prepar.GetB }
    let l := { l with s := st.prepar.GetS }
    .returned { logic := l.applyCellOpsQueue, prepar := st.prepar, cout := st.cout }

/-- `Logic::LoadDefault()`. -/
def Logic.LoadDefault (l : Logic) : Logic :=
  let l := { l with _field_ptr := l._field_ptr.Clear }
  { l with _field_ptr := l._field_ptr.DefaultPreset }

/-- `LoadFileMode::ConfigLogic(context)`, with `DEFAULT_FIELD_SIZE` being `20,60`.
`heap` is the content of the freshly allocated rows, `b0` and `s0` what the
parser's uninitialised members hold. -/
def LoadFileMode.ConfigLogic (inputFile : List Char)
    (disk : List Char → Option (List (List Char))) (heap : Int → Int → Bool) (b0 s0 : Int) :
    Outcome World :=
  let f := Field.createField 20 60 heap
  let l := Logic.createBS f 3 23
  let p := PresetParser.create inputFile b0 s0
  l.LoadPreset p disk []

/-- `DefaultMode::ConfigLogic(context)`. -/
def DefaultMode.ConfigLogic (heap : Int → Int → Bool) : Logic :=
  let f := Field.createField 20 60 heap
  let l := Logic.createBS f 3 23
  l.LoadDefault

/-! ## Notions that the specification uses -/

/-- The eight positions around `(x, y)`, before normalisation. -/
def neighbours (x y : Int) : List (Int × Int) :=
  [(x - 1, y - 1), (x - 1, y), (x - 1, y + 1), (x, y - 1), (x, y + 1),
   (x + 1, y - 1), (x + 1, y), (x + 1, y + 1)]

/-- The number of live cells among the eight toroidal neighbours of `(x, y)`:
each of the eight positions is looked up with `getAt`, which wraps it. -/
def liveNeighbours (f : Field) (x y : Int) : Int :=
  ((neighbours x y).countP (fun p => f.getAt p.1 p.2) : Nat)

/-- The character of the decimal digit `d`. -/
def digitChar (d : Nat) : Char := Char.ofNat (48 + d)

/-- The decimal numeral of a natural number, most significant digit first. -/
def decimalNat (k : Nat) : List Char :=
  if k = 0 then ['0'] else (Nat.digits 10 k).reverse.map digitChar

/-- The sign that an integer numeral may carry in front. -/
inductive Sign where
  /-- No sign. -/
  | absent
  /-- The sign `+`. -/
  | plus
  /-- The sign `-`. -/
  | minus
deriving DecidableEq

/-- The text of a sign. -/
def Sign.text : Sign → List Char
  | .absent => []
  | .plus => ['+']
  | .minus => ['-']

/-- An integer numeral as a text may write it: an optional sign, any number of leading
zeros, and the decimal numeral of the magnitude. -/
structure Numeral where
  sign : Sign
  zeros : Nat
  magnitude : Nat
deriving DecidableEq

/-- The text of a numeral. -/
def Numeral.text (u : Numeral) : List Char :=
  u.sign.text ++ (List.replicate u.zeros '0' ++ decimalNat u.magnitude)

/-- The integer that a numeral denotes. -/
def Numeral.value (u : Numeral) : Int :=
  if u.sign = Sign.minus then -(u.magnitude : Int) else (u.magnitude : Int)

/-- The lines of a preset file after the name line, by their make-up. -/
inductive PresetLine where
  /-- A parameter line: `#` and the text after it, as in `#R B3/S23` and
  `#N some comment`. -/
  | parameter (text : List Char)
  /-- A cell line, two integers separated by white space: white space `lead` (possibly
  none), the numeral `x`, white space `sep`, the numeral `y`, and `trail`, which is
  empty or starts with a character that is not a digit (white space, the `\r` of a
  CRLF line end, or other text). -/
  | cell (lead : List Char) (x : Numeral) (sep : List Char) (y : Numeral) (trail : List Char)
deriving DecidableEq

/-- The text of a line. -/
def PresetLine.text : PresetLine → List Char
  | .parameter text => '#' :: text
  | .cell lead x sep y trail => lead ++ (x.text ++ (sep ++ (y.text ++ trail)))

/-- The lines that the format allows for, and more.  A cell line is admissible when
`lead` and `sep` are white space, `sep` is not empty (or, beyond the format, is empty
before a `y` that carries a sign), `trail` does not start with a digit and both
integers are values of `int`.  A parameter line is admissible unless it is the bare
`#N`; so every rule line `#R B<int>/S<int>` and every comment line `#N <comment text>`
is, whatever its spacing and its numerals. -/
def PresetLine.admissible : PresetLine → Bool
  | .parameter text => decide (text ≠ ['N'])
  | .cell lead x sep y trail =>
    lead.all isspace && ((!sep.isEmpty || decide (y.sign ≠ Sign.absent)) && sep.all isspace) &&
    (match trail with
      | [] => true
      | c :: _ => !isdigit c) &&
    decide (INT_MIN ≤ x.value ∧ x.value ≤ INT_MAX ∧ INT_MIN ≤ y.value ∧ y.value ≤ INT_MAX)

/-! ## Construction of a field -/

/-- The expression `new T[len]` for an `int len`.  A negative length always throws:
where the compiler checks the length it is `std::bad_array_new_length`, where it hands
the length, converted to `size_t`, to the allocator it is the `std::bad_alloc` of a
request that no allocator can meet.  For the other lengths `granted` says whether the
allocator finds the memory; when it does not, `std::bad_alloc` is thrown. -/
def newArray (granted : Bool) (len : Int) : Except Exn Unit :=
  if len < 0 then .error Exn.bad_alloc
  else if granted then .ok () else .error Exn.bad_alloc

/-- The loop `for (int i = 0; i < n; i++) _field[i] = new bool[m];` of `createField`,
over the rows still to allocate; `alloc (i + 1)` says whether the allocator finds the
memory for row `i`. -/
def allocRows (alloc : Nat → Bool) : List Nat → Int → Except Exn Unit
  | [], _ => .ok ()
  | i :: rest, m =>
    match newArray (alloc (i + 1)) m with
    | .error e => .error e
    | .ok _ => allocRows alloc rest m

/-- The constructor `Field(int n, int m)`: `createField` with its allocations
`new bool*[n]` and, row by row, `new bool[m]`.  There is no check of `n` or `m`.
`alloc 0` says whether the allocator finds the memory for the array of rows, and
`alloc (i + 1)` whether it finds the memory for row `i`. -/
def Field.constructWith (alloc : Nat → Bool) (n m : Int) (heap : Int → Int → Bool) :
    Except Exn Field :=
  match newArray (alloc 0) n with
  | .error e => .error e
  | .ok _ =>
    match allocRows alloc (List.range n.toNat) m with
    | .error e => .error e
    | .ok _ => .ok (Field.createField n m heap)

/-- The constructor `Field(int n, int m)` when the allocator finds the memory for
every array it is asked for. -/
def Field.construct (n m : Int) (heap : Int → Int → Bool) : Except Exn Field :=
  Field.constructWith (fun _ => true) n m heap

/-! ## A tick with another scan order -/

/-- The coordinates of the stored cells in the order in which `scanField` visits
them: row by row, each row from column 0 upwards. -/
def rowMajor (n m : Int) : List (Int × Int) :=
  (List.range n.toNat).flatMap
    (fun i => (List.range m.toNat).map (fun j => (Int.ofNat i, Int.ofNat j)))

/-- A tick whose scan visits the cells in the order `cells` instead of row by row:
the body of the scan loop is run for each of them in turn, and the queue is then
applied front to back, as in `Tick`. -/
def Logic.TickInOrder (l : Logic) (cells : List (Int × Int)) : Logic :=
  let q := cells.foldl (fun q c => l.scanCell q c.1 c.2) l.ops_q
  let l := { l with ops_q := q }
  l.applyCellOpsQueue

/-- A tick whose scan is that of `scanField` and whose apply phase runs over the
queue `ops` instead of the queue as it was pushed. -/
def Logic.TickApplying (l : Logic) (ops : List CellOp) : Logic :=
  let l := l.scanField
  let l := { l with ops_q := ops }
  l.applyCellOpsQueue

/-- The number of `%d` conversions in a format. -/
def conversions : List Directive → Nat
  | [] => 0
  | Directive.int :: ds => conversions ds + 1
  | Directive.lit _ :: ds => conversions ds
  | Directive.space :: ds => conversions ds

/-- The stored cells that `activeCellSum(x, y)` reads: the eight positions around
`(x, y)`, each normalised as `getAt` does. -/
def neighbourCells (f : Field) (x y : Int) : List (Int × Int) :=
  (neighbours x y).map (fun p => (f.normalizeX p.1 false, f.normalizeY p.2))

/-! ## Facts about `Field` -/

/-- The arithmetic of `normalizeX`: truncating remainder, lifted by one border
when negative, is the Euclidean remainder. -/
theorem norm_core (x border : Int) (hb : 0 < border) :
    (if x - border * Int.tdiv x border < 0 then x - border * Int.tdiv x border + border
      else x - border * Int.tdiv x border) = x % border := by
  have hdef : x - border * Int.tdiv x border = Int.tmod x border := (Int.tmod_def x border).symm
  rw [hdef]
  have hlt : Int.tmod x border < border := Int.tmod_lt_of_pos x hb
  have hneg : Int.tmod (-x) border = -Int.tmod x border := by
    rw [Int.tmod_def, Int.tmod_def, Int.neg_tdiv]; ring
  have hgt : -border < Int.tmod x border := by
    have := Int.tmod_lt_of_pos (-x) hb
    rw [hneg] at this; omega
  have hx : x % border = Int.tmod x border % border := by
    conv_lhs => rw [← Int.tmod_add_tdiv x border]
    exact Int.add_mul_emod_self_left _ _ _
  rw [hx]
  split
  · rename_i h
    rw [← Int.add_emod_self, Int.emod_eq_of_lt (by omega) (by omega)]
  · rename_i h
    rw [Int.emod_eq_of_lt (by omega) hlt]

theorem normalizeX_false (f : Field) (x : Int) (hn : 0 < f.n) :
    f.normalizeX x false = x % f.n := by
  simpa [Field.normalizeX] using norm_core x f.n hn

theorem normalizeY_eq (f : Field) (y : Int) (hm : 0 < f.m) :
    f.normalizeY y = y % f.m := by
  simpa [Field.normalizeY, Field.normalizeX] using norm_core y f.m hm

theorem getAt_eq (f : Field) (hn : 0 < f.n) (hm : 0 < f.m) (x y : Int) :
    f.getAt x y = f._field (x % f.n) (y % f.m) := by
  simp [Field.getAt, normalizeX_false f x hn, normalizeY_eq f y hm]

theorem setAt_field (f : Field) (hn : 0 < f.n) (hm : 0 < f.m) (x y : Int) (v : Bool) :
    (f.setAt x y v)._field = store f._field (x % f.n) (y % f.m) v := by
  simp [Field.setAt, normalizeX_false f x hn, normalizeY_eq f y hm]

@[simp]
theorem setAt_n (f : Field) (x y : Int) (v : Bool) : (f.setAt x y v).n = f.n := rfl

@[simp]
theorem setAt_m (f : Field) (x y : Int) (v : Bool) : (f.setAt x y v).m = f.m := rfl

theorem getAt_setAt (f : Field) (hn : 0 < f.n) (hm : 0 < f.m) (x y x' y' : Int) (v : Bool) :
    (f.setAt x y v).getAt x' y' =
      if x' % f.n = x % f.n ∧ y' % f.m = y % f.m then v else f.getAt x' y' := by
  rw [getAt_eq (f.setAt x y v) hn hm, setAt_field f hn hm, getAt_eq f hn hm]
  simp [store]

theorem tmod_emod (x border : Int) : Int.tmod x border % border = x % border := by
  conv_rhs => rw [← Int.tmod_add_tdiv x border]
  exact (Int.add_mul_emod_self_left _ _ _).symm

theorem floored_formula (x border : Int) (hb : 0 < border) :
    Int.tmod (Int.tmod x border + border) border = x % border := by
  have hlt : Int.tmod x border < border := Int.tmod_lt_of_pos x hb
  have hneg : Int.tmod (-x) border = -Int.tmod x border := by
    rw [Int.tmod_def, Int.tmod_def, Int.neg_tdiv]; ring
  have hgt : -border < Int.tmod x border := by
    have := Int.tmod_lt_of_pos (-x) hb
    rw [hneg] at this; omega
  rw [Int.tmod_eq_emod (by omega) (by omega), Int.add_emod_self, tmod_emod]

theorem normalizeX_bounds (f : Field) (x : Int) (hn : 0 < f.n) :
    0 ≤ f.normalizeX x false ∧ f.normalizeX x false < f.n := by
  rw [normalizeX_false f x hn]
  exact ⟨Int.emod_nonneg _ (by omega), Int.emod_lt_of_pos _ hn⟩

theorem normalizeY_bounds (f : Field) (y : Int) (hm : 0 < f.m) :
    0 ≤ f.normalizeY y ∧ f.normalizeY y < f.m := by
  rw [normalizeY_eq f y hm]
  exact ⟨Int.emod_nonneg _ (by omega), Int.emod_lt_of_pos _ hm⟩

/-- C2: for a positive extent (`n` for `normalizeX`, `m` for `normalizeY`) and every
integer coordinate, negative ones included, the result `r` satisfies `0 <= r < extent`
and is `((coord % extent) + extent) % extent` with `%` the truncating remainder
(`Int.tmod`), which is the floored modulo (`Int.fmod`). -/
theorem normalize_floored_modulo (f : Field) (coord : Int) :
    (0 < f.n →
      0 ≤ f.normalizeX coord false ∧ f.normalizeX coord false < f.n ∧
      f.normalizeX coord false = Int.tmod (Int.tmod coord f.n + f.n) f.n ∧
      f.normalizeX coord false = Int.fmod coord f.n) ∧
    (0 < f.m →
      0 ≤ f.normalizeY coord ∧ f.normalizeY coord < f.m ∧
      f.normalizeY coord = Int.tmod (Int.tmod coord f.m + f.m) f.m ∧
      f.normalizeY coord = Int.fmod coord f.m) := by
  constructor
  · intro hn
    rw [normalizeX_false f coord hn, floored_formula coord f.n hn,
      Int.fmod_eq_emod coord (Int.le_of_lt hn)]
    exact ⟨Int.emod_nonneg _ (by omega), Int.emod_lt_of_pos _ hn, rfl, rfl⟩
  · intro hm
    rw [normalizeY_eq f coord hm, floored_formula coord f.m hm,
      Int.fmod_eq_emod coord (Int.le_of_lt hm)]
    exact ⟨Int.emod_nonneg _ (by omega), Int.emod_lt_of_pos _ hm, rfl, rfl⟩

/-- C2 at the field of size 3 x 4 and the coordinate -7. -/
theorem normalize_floored_modulo_witness :
    (0 ≤ (Field.createField 3 4 (fun _ _ => false)).normalizeX (-7) false ∧
      (Field.createField 3 4 (fun _ _ => false)).normalizeX (-7) false <
        (Field.createField 3 4 (fun _ _ => false)).n ∧
      (Field.createField 3 4 (fun _ _ => false)).normalizeX (-7) false =
        Int.tmod (Int.tmod (-7) (Field.createField 3 4 (fun _ _ => false)).n +
          (Field.createField 3 4 (fun _ _ => false)).n)
          (Field.createField 3 4 (fun _ _ => false)).n ∧
      (Field.createField 3 4 (fun _ _ => false)).normalizeX (-7) false =
        Int.fmod (-7) (Field.createField 3 4 (fun _ _ => false)).n) ∧
    (0 ≤ (Field.createField 3 4 (fun _ _ => false)).normalizeY (-7) ∧
      (Field.createField 3 4 (fun _ _ => false)).normalizeY (-7) <
        (Field.createField 3 4 (fun _ _ => false)).m ∧
      (Field.createField 3 4 (fun _ _ => false)).normalizeY (-7) =
        Int.tmod (Int.tmod (-7) (Field.createField 3 4 (fun _ _ => false)).m +
          (Field.createField 3 4 (fun _ _ => false)).m)
          (Field.createField 3 4 (fun _ _ => false)).m ∧
      (Field.createField 3 4 (fun _ _ => false)).normalizeY (-7) =
        Int.fmod (-7) (Field.createField 3 4 (fun _ _ => false)).m) :=
  ⟨(normalize_floored_modulo (Field.createField 3 4 (fun _ _ => false)) (-7)).1 (by decide),
   (normalize_floored_modulo (Field.createField 3 4 (fun _ _ => false)) (-7)).2 (by decide)⟩

/-- C3: on a field with `n, m > 0`, `getAt(x, y)` equals `getAt(x + k*n, y + j*m)` for
all integers `x, y, k, j`, negative `k` and `j` included. -/
theorem getAt_periodic (f : Field) (hn : 0 < f.n) (hm : 0 < f.m) (x y k j : Int) :
    f.getAt x y = f.getAt (x + k * f.n) (y + j * f.m) := by
  rw [getAt_eq f hn hm, getAt_eq f hn hm, Int.add_mul_emod_self, Int.add_mul_emod_self]

/-- C3 on a 3 x 4 field whose only live stored cell is `(2, 1)`, shifted by `-2` and
`5` periods. -/
theorem getAt_periodic_witness :
    (Field.createField 3 4 (fun a b => decide (a = 2 ∧ b = 1))).getAt (-1) 5 =
      (Field.createField 3 4 (fun a b => decide (a = 2 ∧ b = 1))).getAt
        (-1 + (-2) * (Field.createField 3 4 (fun a b => decide (a = 2 ∧ b = 1))).n)
        (5 + 5 * (Field.createField 3 4 (fun a b => decide (a = 2 ∧ b = 1))).m) :=
  getAt_periodic (Field.createField 3 4 (fun a b => decide (a = 2 ∧ b = 1)))
    (by decide) (by decide) (-1) 5 (-2) 5

/-- C4: on a field with `n, m > 0`, after `setAt(x, y, v)` the call `getAt(x', y')`
returns `v` when `x'` is congruent to `x` modulo `n` and `y'` to `y` modulo `m`, and
the value from before the call otherwise; the index written, and the index read, lie
in `[0,n) x [0,m)`, the write changes the storage at that one index only and leaves
`n` and `m` alone. -/
theorem setAt_getAt (f : Field) (hn : 0 < f.n) (hm : 0 < f.m) (x y x' y' : Int) (v : Bool) :
    ((x' ≡ x [ZMOD f.n] ∧ y' ≡ y [ZMOD f.m]) → (f.setAt x y v).getAt x' y' = v) ∧
    (¬(x' ≡ x [ZMOD f.n] ∧ y' ≡ y [ZMOD f.m]) →
      (f.setAt x y v).getAt x' y' = f.getAt x' y') ∧
    (0 ≤ f.normalizeX x false ∧ f.normalizeX x false < f.n ∧
      0 ≤ f.normalizeY y ∧ f.normalizeY y < f.m) ∧
    (0 ≤ f.normalizeX x' false ∧ f.normalizeX x' false < f.n ∧
      0 ≤ f.normalizeY y' ∧ f.normalizeY y' < f.m) ∧
    (f.setAt x y v)._field = store f._field (f.normalizeX x false) (f.normalizeY y) v ∧
    (f.setAt x y v).n = f.n ∧ (f.setAt x y v).m = f.m := by
  have hb := fun c => normalizeX_bounds f c hn
  have hb' := fun c => normalizeY_bounds f c hm
  refine ⟨?_, ?_, ⟨(hb x).1, (hb x).2, (hb' y).1, (hb' y).2⟩,
    ⟨(hb x').1, (hb x').2, (hb' y').1, (hb' y').2⟩, rfl, rfl, rfl⟩
  · intro h
    rw [getAt_setAt f hn hm]
    exact if_pos h
  · intro h
    rw [getAt_setAt f hn hm]
    exact if_neg h

/-- C4 on a 3 x 4 field of dead cells: `setAt(-1, 5, true)` is seen at `(2, 1)`. -/
theorem setAt_getAt_witness :
    ((Field.createField 3 4 (fun _ _ => false)).setAt (-1) 5 true).getAt 2 1 = true :=
  (setAt_getAt (Field.createField 3 4 (fun _ _ => false)) (by decide) (by decide)
    (-1) 5 2 1 true).1 (by decide)

/-! ## The rule check -/

theorem checkLoop_digits (sum : Int) :
    ∀ (fuel k : Nat), k ≤ fuel →
      (checkLoop fuel (k : Int) sum = true ↔ ∃ d ∈ Nat.digits 10 k, (d : Int) = sum) := by
  intro fuel
  induction fuel with
  | zero =>
    intro k hk
    have : k = 0 := by omega
    subst this
    simp [checkLoop]
  | succ fuel ih =>
    intro k hk
    rcases Nat.eq_zero_or_pos k with h0 | hpos
    · subst h0
      simp [checkLoop]
    · have hmod : Int.tmod (k : Int) 10 = ((k % 10 : Nat) : Int) := (Int.ofNat_tmod k 10).symm
      have hdiv : Int.tdiv (k : Int) 10 = ((k / 10 : Nat) : Int) := by
        rw [Int.tdiv_eq_ediv (by omega) (by omega)]; rfl
      have hk' : k / 10 ≤ fuel := by omega
      have hpos' : (k : Int) > 0 := by omega
      rw [checkLoop, if_pos hpos', hmod, hdiv, Nat.digits_def' (by omega) hpos]
      by_cases hd : ((k % 10 : Nat) : Int) = sum
      · simp [hd]
      · rw [if_neg hd, ih (k / 10) hk']
        constructor
        · rintro ⟨d, hmem, h⟩
          exact ⟨d, List.mem_cons_of_mem _ hmem, h⟩
        · rintro ⟨d, hmem, h⟩
          rcases List.mem_cons.mp hmem with heq | htail
          · exact absurd (heq ▸ h) hd
          · exact ⟨d, htail, h⟩

/-- The bound `_b.toNat` on the rounds of the loop of `checkB` is never what stops
it: every larger bound gives the same answer. -/
theorem checkLoop_fuel (_b sum : Int) (fuel : Nat) (h : _b.toNat ≤ fuel) :
    checkLoop fuel _b sum = checkLoop _b.toNat _b sum := by
  rcases Int.lt_or_le 0 _b with hpos | hneg
  · obtain ⟨k, rfl⟩ := Int.eq_ofNat_of_zero_le (Int.le_of_lt hpos)
    have h1 := checkLoop_digits sum fuel k (by simpa using h)
    have h2 := checkLoop_digits sum k k (Nat.le_refl k)
    have : (checkLoop fuel (k : Int) sum = true) ↔ (checkLoop k (k : Int) sum = true) :=
      h1.trans h2.symm
    simpa using Bool.eq_iff_iff.mpr this
  · have hz : _b.toNat = 0 := by omega
    rw [hz]
    cases fuel with
    | zero => rfl
    | succ fuel => simp [checkLoop, Int.not_lt.mpr hneg]

theorem checkB_pos (l : Logic) (sum : Int) (check_s : Bool)
    (hv : 1 ≤ (if check_s then l.s else l.b)) :
    l.checkB sum check_s = true ↔
      ∃ d ∈ Nat.digits 10 (if check_s then l.s else l.b).toNat, (d : Int) = sum := by
  obtain ⟨k, hk⟩ := Int.eq_ofNat_of_zero_le (show 0 ≤ (if check_s then l.s else l.b) by omega)
  unfold Logic.checkB
  simp only [hk]
  simpa using checkLoop_digits sum k k (Nat.le_refl k)

theorem checkB_nonpos (l : Logic) (sum : Int) (check_s : Bool)
    (hv : (if check_s then l.s else l.b) ≤ 0) : l.checkB sum check_s = false := by
  unfold Logic.checkB
  have hz : (if check_s then l.s else l.b).toNat = 0 := by omega
  simp only [hz]
  rfl

theorem digits_mem_iff (v c : Int) (hc : 0 ≤ c) :
    (∃ d ∈ Nat.digits 10 v.toNat, (d : Int) = c) ↔ c.toNat ∈ Nat.digits 10 v.toNat := by
  constructor
  · rintro ⟨d, hd, rfl⟩
    simpa using hd
  · intro h
    exact ⟨c.toNat, h, by omega⟩

/-- C5: for a rule value `v >= 1` and a neighbour count `c` in `0..8`, `checkB` (rule
value in `b`) and `checkS` (rule value in `s`) return true exactly when `c` is one of
the decimal digits of `v`; the value 23 matches the counts 2 and 3 and no others, and
223 matches the same counts as 23. -/
theorem checkB_digits (field : Field) (q : List CellOp) (v other c : Int)
    (hv : 1 ≤ v) (hc0 : 0 ≤ c) (hc8 : c ≤ 8) :
    ((Logic.mk field q v other).checkB c false = true ↔ c.toNat ∈ Nat.digits 10 v.toNat) ∧
    ((Logic.mk field q other v).checkS c = true ↔ c.toNat ∈ Nat.digits 10 v.toNat) ∧
    ((Logic.mk field q 23 other).checkB c false = true ↔ c = 2 ∨ c = 3) ∧
    ((Logic.mk field q other 23).checkS c = true ↔ c = 2 ∨ c = 3) ∧
    (Logic.mk field q 223 other).checkB c false = (Logic.mk field q 23 other).checkB c false ∧
    (Logic.mk field q other 223).checkS c = (Logic.mk field q other 23).checkS c := by
  have hB : ∀ w : Int, 1 ≤ w →
      ((Logic.mk field q w other).checkB c false = true ↔ c.toNat ∈ Nat.digits 10 w.toNat) := by
    intro w hw
    rw [checkB_pos _ c false (by simpa using hw)]
    exact digits_mem_iff w c hc0
  have hS : ∀ w : Int, 1 ≤ w →
      ((Logic.mk field q other w).checkS c = true ↔ c.toNat ∈ Nat.digits 10 w.toNat) := by
    intro w hw
    unfold Logic.checkS
    rw [checkB_pos _ c true (by simpa using hw)]
    exact digits_mem_iff w c hc0
  have d23 : Nat.digits 10 (23 : Int).toNat = [3, 2] := by
    rw [show (23 : Int).toNat = 23 from rfl]; norm_num
  have d223 : Nat.digits 10 (223 : Int).toNat = [3, 2, 2] := by
    rw [show (223 : Int).toNat = 223 from rfl]; norm_num
  have e23 : c.toNat ∈ [3, 2] ↔ c = 2 ∨ c = 3 := by
    simp only [List.mem_cons, List.mem_singleton, List.not_mem_nil, or_false]
    omega
  have e223 : c.toNat ∈ [3, 2, 2] ↔ c = 2 ∨ c = 3 := by
    simp only [List.mem_cons, List.mem_singleton, List.not_mem_nil, or_false]
    omega
  refine ⟨hB v hv, hS v hv, ?_, ?_, ?_, ?_⟩
  · rw [hB 23 (by decide), d23]; exact e23
  · rw [hS 23 (by decide), d23]; exact e23
  · apply Bool.eq_iff_iff.mpr
    rw [hB 223 (by decide), hB 23 (by decide), d223, d23, e223, e23]
  · apply Bool.eq_iff_iff.mpr
    rw [hS 223 (by decide), hS 23 (by decide), d223, d23, e223, e23]

/-- C5 at the rule value 23 and the neighbour count 3, on a 20 x 60 field. -/
theorem checkB_digits_witness :
    (Logic.mk (Field.createField 20 60 (fun _ _ => false)) [] 23 23).checkB 3 false = true :=
  ((checkB_digits (Field.createField 20 60 (fun _ _ => false)) [] 23 23 3
    (by decide) (by decide) (by decide)).1).2
    (by rw [show (23 : Int).toNat = 23 from rfl, show (3 : Int).toNat = 3 from rfl]; norm_num)

/-- C6, as the code has it: with `b = 0` the call `checkB(0)` returns false (and with
`s = 0` so does `checkS(0)`), so the rule value 0 does not match the count 0. -/
theorem checkB_zero_counterexample :
    ¬((Logic.createBS (Field.createField 20 60 (fun _ _ => false)) 0 23).checkB 0 false = true) ∧
    ¬((Logic.createBS (Field.createField 20 60 (fun _ _ => false)) 3 0).checkS 0 = true) := by
  decide

/-- C6 amended: a rule value 0 matches no neighbour count at all; with `b = 0`,
`checkB(c)` is false for every `c`, and with `s = 0` so is `checkS(c)`. -/
theorem checkB_zero_rule (l : Logic) (c : Int) :
    (l.b = 0 → l.checkB c false = false) ∧ (l.s = 0 → l.checkS c = false) := by
  constructor
  · intro h
    exact checkB_nonpos l c false (by simp [h])
  · intro h
    exact checkB_nonpos l c true (by simp [h])

/-- C6 amended, at the rule B0/S0 and the neighbour count 0. -/
theorem checkB_zero_rule_witness :
    (Logic.createBS (Field.createField 20 60 (fun _ _ => false)) 0 0).checkB 0 false = false ∧
    (Logic.createBS (Field.createField 20 60 (fun _ _ => false)) 0 0).checkS 0 = false :=
  ⟨(checkB_zero_rule (Logic.createBS (Field.createField 20 60 (fun _ _ => false)) 0 0) 0).1 rfl,
   (checkB_zero_rule (Logic.createBS (Field.createField 20 60 (fun _ _ => false)) 0 0) 0).2 rfl⟩

/-! ## One tick -/

theorem applyLoop_n (ops : List CellOp) : ∀ f : Field, (applyLoop ops f).n = f.n := by
  induction ops with
  | nil => intro f; rfl
  | cons op rest ih => intro f; rw [applyLoop, ih]; rfl

theorem applyLoop_m (ops : List CellOp) : ∀ f : Field, (applyLoop ops f).m = f.m := by
  induction ops with
  | nil => intro f; rfl
  | cons op rest ih => intro f; rw [applyLoop, ih]; rfl

/-- Operations that do not address the cell of `(i, j)` leave `getAt(i, j)` alone. -/
theorem getAt_applyLoop_of_no_match (i j : Int) (ops : List CellOp) :
    ∀ f : Field, 0 < f.n → 0 < f.m →
      (∀ op ∈ ops, ¬(i % f.n = op.x % f.n ∧ j % f.m = op.y % f.m)) →
      (applyLoop ops f).getAt i j = f.getAt i j := by
  induction ops with
  | nil => intro f _ _ _; rfl
  | cons op rest ih =>
    intro f hn hm h
    rw [applyLoop, ih (f.setAt op.x op.y op.val) hn hm
      (fun o ho => h o (List.mem_cons_of_mem _ ho)), getAt_setAt f hn hm,
      if_neg (h op (List.mem_cons_self _ _))]

/-- When some operation addresses the cell of `(i, j)` and all that do carry the
value `v`, `getAt(i, j)` is `v` after the queue has been applied. -/
theorem getAt_applyLoop_of_match (i j : Int) (v : Bool) (ops : List CellOp) :
    ∀ f : Field, 0 < f.n → 0 < f.m →
      (∃ op ∈ ops, i % f.n = op.x % f.n ∧ j % f.m = op.y % f.m) →
      (∀ op ∈ ops, (i % f.n = op.x % f.n ∧ j % f.m = op.y % f.m) → op.val = v) →
      (applyLoop ops f).getAt i j = v := by
  induction ops with
  | nil =>
    intro f _ _ hex _
    obtain ⟨op, hop, _⟩ := hex
    cases hop
  | cons op rest ih =>
    intro f hn hm hex hall
    rw [applyLoop]
    by_cases hrest : ∃ o ∈ rest, i % f.n = o.x % f.n ∧ j % f.m = o.y % f.m
    · exact ih (f.setAt op.x op.y op.val) hn hm hrest
        (fun o ho hmatch => hall o (List.mem_cons_of_mem _ ho) hmatch)
    · have hnone : ∀ o ∈ rest, ¬(i % f.n = o.x % f.n ∧ j % f.m = o.y % f.m) :=
        fun o ho hmatch => hrest ⟨o, ho, hmatch⟩
      have hop : i % f.n = op.x % f.n ∧ j % f.m = op.y % f.m := by
        obtain ⟨o, ho, hmatch⟩ := hex
        rcases List.mem_cons.mp ho with rfl | ho'
        · exact hmatch
        · exact absurd hmatch (hnone o ho')
      rw [getAt_applyLoop_of_no_match i j rest (f.setAt op.x op.y op.val) hn hm hnone,
        getAt_setAt f hn hm, if_pos hop]
      exact hall op (List.mem_cons_self _ _) hop

/-- Membership in a queue built by a loop whose body only appends. -/
theorem mem_foldl_step {α β : Type} (step : List β → α → List β) (P : α → β → Prop)
    (hstep : ∀ q x o, o ∈ step q x ↔ o ∈ q ∨ P x o) (o : β) (xs : List α) :
    ∀ q : List β, o ∈ xs.foldl step q ↔ o ∈ q ∨ ∃ x ∈ xs, P x o := by
  induction xs with
  | nil => intro q; simp
  | cons x rest ih =>
    intro q
    rw [List.foldl_cons, ih, hstep]
    constructor
    · rintro ((h | h) | ⟨y, hy, h⟩)
      · exact Or.inl h
      · exact Or.inr ⟨x, List.mem_cons_self _ _, h⟩
      · exact Or.inr ⟨y, List.mem_cons_of_mem _ hy, h⟩
    · rintro (h | ⟨y, hy, h⟩)
      · exact Or.inl (Or.inl h)
      · rcases List.mem_cons.mp hy with rfl | hy'
        · exact Or.inl (Or.inr h)
        · exact Or.inr ⟨y, hy', h⟩

/-- The state that `scanField` computes for the cell `(i, j)`. -/
theorem mem_scanCell (l : Logic) (q : List CellOp) (i j : Int) (o : CellOp) :
    o ∈ l.scanCell q i j ↔ o ∈ q ∨
      (o = { x := i, y := j,
             val := (l._field_ptr.getAt i j && l.checkS (l.activeCellSum i j)) ||
               l.checkB (l.activeCellSum i j) false } ∧
        ((l._field_ptr.getAt i j && l.checkS (l.activeCellSum i j)) ||
          l.checkB (l.activeCellSum i j) false) ≠ l._field_ptr.getAt i j) := by
  unfold Logic.scanCell pushOp
  by_cases h : ((l._field_ptr.getAt i j && l.checkS (l.activeCellSum i j)) ||
      l.checkB (l.activeCellSum i j) false) = l._field_ptr.getAt i j
  · simp [h]
  · simp [h]

theorem mem_scanField (l : Logic) (o : CellOp) :
    o ∈ l.scanField.ops_q ↔ o ∈ l.ops_q ∨
      ∃ i ∈ List.range l._field_ptr.n.toNat, ∃ j ∈ List.range l._field_ptr.m.toNat,
        (o = { x := Int.ofNat i, y := Int.ofNat j,
               val := (l._field_ptr.getAt (Int.ofNat i) (Int.ofNat j) &&
                   l.checkS (l.activeCellSum (Int.ofNat i) (Int.ofNat j))) ||
                 l.checkB (l.activeCellSum (Int.ofNat i) (Int.ofNat j)) false } ∧
          ((l._field_ptr.getAt (Int.ofNat i) (Int.ofNat j) &&
              l.checkS (l.activeCellSum (Int.ofNat i) (Int.ofNat j))) ||
            l.checkB (l.activeCellSum (Int.ofNat i) (Int.ofNat j)) false) ≠
            l._field_ptr.getAt (Int.ofNat i) (Int.ofNat j)) := by
  unfold Logic.scanField Field.getN Field.getM
  simp only []
  rw [mem_foldl_step _ _ (fun q i o => mem_foldl_step _ _
    (fun q j o => mem_scanCell l q (Int.ofNat i) (Int.ofNat j) o) o _ q)]

theorem activeCellSum_eq (l : Logic) (x y : Int) :
    l.activeCellSum x y = liveNeighbours l._field_ptr x y := by
  have h1 : x - 1 ≠ x := by omega
  have h2 : x + 1 ≠ x := by omega
  have h3 : y - 1 ≠ y := by omega
  have h4 : y + 1 ≠ y := by omega
  simp only [Logic.activeCellSum, liveNeighbours, neighbours, List.foldl_cons, List.foldl_nil,
    List.countP_cons, List.countP_nil, h1, h2, h3, h4, false_and, and_false, and_self,
    if_true, if_false]
  push_cast
  ring

/-- An operation pushed by `scanField` addresses the cell of an in-range `(i, j)` only
when its coordinates are `(i, j)`. -/
theorem scan_coords_eq (n m i j : Int) (a b : Nat) (hi0 : 0 ≤ i) (hi : i < n) (hj0 : 0 ≤ j)
    (hj : j < m) (ha : a ∈ List.range n.toNat) (hb : b ∈ List.range m.toNat)
    (h : i % n = Int.ofNat a % n ∧ j % m = Int.ofNat b % m) :
    Int.ofNat a = i ∧ Int.ofNat b = j := by
  have ha' : (a : Int) < n := by have := List.mem_range.mp ha; omega
  have hb' : (b : Int) < m := by have := List.mem_range.mp hb; omega
  obtain ⟨h1, h2⟩ := h
  have e1 : Int.ofNat a % n = Int.ofNat a := Int.emod_eq_of_lt (Int.ofNat_zero_le a) ha'
  have e2 : Int.ofNat b % m = Int.ofNat b := Int.emod_eq_of_lt (Int.ofNat_zero_le b) hb'
  rw [Int.emod_eq_of_lt hi0 hi, e1] at h1
  rw [Int.emod_eq_of_lt hj0 hj, e2] at h2
  exact ⟨h1.symm, h2.symm⟩

theorem Tick_getAt (l : Logic) (hn : 0 < l._field_ptr.n) (hm : 0 < l._field_ptr.m)
    (hq : l.ops_q = []) (i j : Int) (hi0 : 0 ≤ i) (hi : i < l._field_ptr.n) (hj0 : 0 ≤ j)
    (hj : j < l._field_ptr.m) :
    l.Tick._field_ptr.getAt i j =
      ((l._field_ptr.getAt i j && l.checkS (l.activeCellSum i j)) ||
        l.checkB (l.activeCellSum i j) false) := by
  have hfield : l.Tick._field_ptr = applyLoop l.scanField.ops_q l._field_ptr := rfl
  rw [hfield]
  by_cases hch : ((l._field_ptr.getAt i j && l.checkS (l.activeCellSum i j)) ||
      l.checkB (l.activeCellSum i j) false) = l._field_ptr.getAt i j
  · rw [getAt_applyLoop_of_no_match i j _ l._field_ptr hn hm, hch]
    intro o ho hmatch
    rw [mem_scanField, hq] at ho
    rcases ho with ho | ⟨a, ha, b, hb, rfl, hne⟩
    · cases ho
    · obtain ⟨rfl, rfl⟩ := scan_coords_eq _ _ i j a b hi0 hi hj0 hj ha hb hmatch
      exact hne hch
  · apply getAt_applyLoop_of_match i j _ _ l._field_ptr hn hm
    · refine ⟨CellOp.mk i j ((l._field_ptr.getAt i j && l.checkS (l.activeCellSum i j)) ||
        l.checkB (l.activeCellSum i j) false), ?_, rfl, rfl⟩
      rw [mem_scanField]
      refine Or.inr ⟨i.toNat, List.mem_range.mpr (by omega),
        j.toNat, List.mem_range.mpr (by omega), ?_⟩
      have ei : Int.ofNat i.toNat = i := Int.toNat_of_nonneg hi0
      have ej : Int.ofNat j.toNat = j := Int.toNat_of_nonneg hj0
      rw [ei, ej]
      exact ⟨rfl, hch⟩
    · intro o ho hmatch
      rw [mem_scanField, hq] at ho
      rcases ho with ho | ⟨a, ha, b, hb, rfl, _⟩
      · cases ho
      · obtain ⟨rfl, rfl⟩ := scan_coords_eq _ _ i j a b hi0 hi hj0 hj ha hb hmatch
        rfl

/-- C1: on a field with `n, m > 0`, for every rule `(b, s)` and every grid, after one
`Tick` (entered with the empty queue that every completed call leaves) the cell at each
`(i, j)` in `[0,n) x [0,m)` is `(alive AND survive) OR birth`: `alive` is the cell before
the tick, `birth` and `survive` are `checkB` and `checkS` of the number of live cells
among the eight toroidal neighbours on the grid as it was before the tick. -/
theorem Tick_cell (l : Logic) (hn : 0 < l._field_ptr.n) (hm : 0 < l._field_ptr.m)
    (hq : l.ops_q = []) (i j : Int) (hi0 : 0 ≤ i) (hi : i < l._field_ptr.n) (hj0 : 0 ≤ j)
    (hj : j < l._field_ptr.m) :
    l.Tick._field_ptr.getAt i j =
      ((l._field_ptr.getAt i j && l.checkS (liveNeighbours l._field_ptr i j)) ||
        l.checkB (liveNeighbours l._field_ptr i j) false) := by
  rw [← activeCellSum_eq]
  exact Tick_getAt l hn hm hq i j hi0 hi hj0 hj

/-- C1 on a 5 x 5 field holding the horizontal blinker `(2,1), (2,2), (2,3)`, rule B3/S23,
at the cell `(1, 2)`. -/
theorem Tick_cell_witness :
    (Logic.createBS (Field.createField 5 5 (fun a b => decide (a = 2 ∧ 1 ≤ b ∧ b ≤ 3)))
        3 23).Tick._field_ptr.getAt 1 2 =
      (((Logic.createBS (Field.createField 5 5 (fun a b => decide (a = 2 ∧ 1 ≤ b ∧ b ≤ 3)))
          3 23)._field_ptr.getAt 1 2 &&
        (Logic.createBS (Field.createField 5 5 (fun a b => decide (a = 2 ∧ 1 ≤ b ∧ b ≤ 3)))
          3 23).checkS (liveNeighbours (Logic.createBS
            (Field.createField 5 5 (fun a b => decide (a = 2 ∧ 1 ≤ b ∧ b ≤ 3)))
            3 23)._field_ptr 1 2)) ||
        (Logic.createBS (Field.createField 5 5 (fun a b => decide (a = 2 ∧ 1 ≤ b ∧ b ≤ 3)))
          3 23).checkB (liveNeighbours (Logic.createBS
            (Field.createField 5 5 (fun a b => decide (a = 2 ∧ 1 ≤ b ∧ b ≤ 3)))
            3 23)._field_ptr 1 2) false) :=
  Tick_cell (Logic.createBS (Field.createField 5 5 (fun a b => decide (a = 2 ∧ 1 ≤ b ∧ b ≤ 3)))
    3 23) (by decide) (by decide) rfl 1 2 (by decide) (by decide) (by decide) (by decide)

/-! ## Clearing the field -/

theorem clearRow_keeps_false (i a b : Int) (js : List Nat) :
    ∀ mem : Int → Int → Bool, mem a b = false →
      (js.foldl (fun mem j => store mem i (Int.ofNat j) false) mem) a b = false := by
  induction js with
  | nil => intro mem h; exact h
  | cons j rest ih =>
    intro mem h
    rw [List.foldl_cons]
    apply ih
    unfold store
    split
    · rfl
    · exact h

theorem clearRow_hit (i : Int) (j0 : Nat) (js : List Nat) (hj : j0 ∈ js) :
    ∀ mem : Int → Int → Bool,
      (js.foldl (fun mem j => store mem i (Int.ofNat j) false) mem) i (Int.ofNat j0) = false := by
  induction js with
  | nil => cases hj
  | cons j rest ih =>
    intro mem
    rw [List.foldl_cons]
    rcases List.mem_cons.mp hj with rfl | hrest
    · apply clearRow_keeps_false
      simp [store]
    · exact ih hrest _

theorem clearRows_keeps_false (a b : Int) (js : List Nat) (rows : List Nat) :
    ∀ mem : Int → Int → Bool, mem a b = false →
      (rows.foldl (fun mem i => js.foldl
        (fun mem j => store mem (Int.ofNat i) (Int.ofNat j) false) mem) mem) a b = false := by
  induction rows with
  | nil => intro mem h; exact h
  | cons i rest ih =>
    intro mem h
    rw [List.foldl_cons]
    exact ih _ (clearRow_keeps_false (Int.ofNat i) a b js mem h)

theorem clearRows_hit (i0 j0 : Nat) (js : List Nat) (hj : j0 ∈ js) (rows : List Nat)
    (hi : i0 ∈ rows) :
    ∀ mem : Int → Int → Bool,
      (rows.foldl (fun mem i => js.foldl
        (fun mem j => store mem (Int.ofNat i) (Int.ofNat j) false) mem) mem)
        (Int.ofNat i0) (Int.ofNat j0) = false := by
  induction rows with
  | nil => cases hi
  | cons i rest ih =>
    intro mem
    rw [List.foldl_cons]
    rcases List.mem_cons.mp hi with rfl | hrest
    · exact clearRows_keeps_false _ _ js rest _ (clearRow_hit (Int.ofNat i0) j0 js hj mem)
    · exact ih hrest _

@[simp]
theorem Clear_n (f : Field) : f.Clear.n = f.n := rfl

@[simp]
theorem Clear_m (f : Field) : f.Clear.m = f.m := rfl

/-- After `Clear` every stored cell of the grid is dead. -/
theorem Clear_field (f : Field) (a b : Int) (ha0 : 0 ≤ a) (ha : a < f.n) (hb0 : 0 ≤ b)
    (hb : b < f.m) : f.Clear._field a b = false := by
  have ea : Int.ofNat a.toNat = a := Int.toNat_of_nonneg ha0
  have eb : Int.ofNat b.toNat = b := Int.toNat_of_nonneg hb0
  have h := clearRows_hit a.toNat b.toNat (List.range f.m.toNat)
    (List.mem_range.mpr (by omega)) (List.range f.n.toNat) (List.mem_range.mpr (by omega))
    f._field
  rw [ea, eb] at h
  exact h

theorem Clear_getAt (f : Field) (hn : 0 < f.n) (hm : 0 < f.m) (x y : Int) :
    f.Clear.getAt x y = false := by
  rw [getAt_eq f.Clear hn hm]
  exact Clear_field f _ _ (Int.emod_nonneg _ (ne_of_gt hn)) (Int.emod_lt_of_pos _ hn)
    (Int.emod_nonneg _ (ne_of_gt hm)) (Int.emod_lt_of_pos _ hm)

/-! ## Loading a preset -/

/-- C7, the code at a preset file without a `#R` line: `LoadFileMode::ConfigLogic`
builds the engine with the rule 3/23 and `LoadPreset` then copies the parser's `b` and
`s`, which no line of the file has written; the rule of the engine is whatever those
members held (`b0`, `s0`), for instance 0 and 0, not 3 and 23. -/
theorem LoadPreset_rule_without_R (heap : Int → Int → Bool) (b0 s0 : Int) :
    (LoadFileMode.ConfigLogic "blinker.txt".toList
        (fun _ => some ["Blinker".toList, "0 1".toList, "1 1".toList, "2 1".toList])
        heap b0 s0).thrown = none ∧
    (LoadFileMode.ConfigLogic "blinker.txt".toList
        (fun _ => some ["Blinker".toList, "0 1".toList, "1 1".toList, "2 1".toList])
        heap b0 s0).state.logic.b = b0 ∧
    (LoadFileMode.ConfigLogic "blinker.txt".toList
        (fun _ => some ["Blinker".toList, "0 1".toList, "1 1".toList, "2 1".toList])
        heap b0 s0).state.logic.s = s0 ∧
    (LoadFileMode.ConfigLogic "blinker.txt".toList
        (fun _ => some ["Blinker".toList, "0 1".toList, "1 1".toList, "2 1".toList])
        heap 0 0).state.logic.b ≠ 3 ∧
    (LoadFileMode.ConfigLogic "blinker.txt".toList
        (fun _ => some ["Blinker".toList, "0 1".toList, "1 1".toList, "2 1".toList])
        heap 0 0).state.logic.s ≠ 23 := by
  refine ⟨rfl, rfl, rfl, ?_, ?_⟩
  · show (0 : Int) ≠ 3
    decide
  · show (0 : Int) ≠ 23
    decide

/-- The line loop of `Parse` throws only on a line that is exactly `#N`. -/
theorem parseLoop_thrown (lines : List (List Char)) :
    ∀ (count : Int) (st : ParseState),
      (parseLoop lines count st).thrown ≠ none → ['#', 'N'] ∈ lines := by
  induction lines with
  | nil => intro count st h; exact absurd rfl h
  | cons line rest ih =>
    intro count st h
    rw [parseLoop] at h
    split at h
    · rename_i h0
      by_cases hbare : line = ['#', 'N']
      · rw [hbare]; exact List.mem_cons_self _ _
      · have hok : ∃ r, st.prepar.parseParameter line = .ok r := by
          unfold PresetParser.parseParameter
          split
          · exact ⟨_, rfl⟩
          · split
            · rename_i h1
              have hlen : ¬ (3 > line.length) := by
                intro hlt
                apply hbare
                match line, h0, h1, hlt with
                | [], h0, _, _ => exact absurd h0 (by decide)
                | [a], _, h1, _ =>
                  have hnul : charAt [a] 1 = Char.ofNat 0 := rfl
                  rw [hnul] at h1
                  exact absurd h1 (by decide)
                | [a, b], h0, h1, _ =>
                  have ha : a = '#' := h0
                  have hb : b = 'N' := h1
                  rw [ha, hb]
                | _ :: _ :: _ :: _, _, _, hlt =>
                  simp only [List.length_cons] at hlt
                  omega
              simp only [PresetParser.parseN, substr, if_neg hlen]
              exact ⟨_, rfl⟩
            · exact ⟨_, rfl⟩
        obtain ⟨r, hr⟩ := hok
        simp only [hr] at h
        exact List.mem_cons_of_mem _ (ih _ _ h)
    · exact List.mem_cons_of_mem _ (ih _ _ h)

/-- C9, the code at a preset file whose second line is a bare `#N`: `parseN` calls
`substr(3)` on a string of size 2, `std::out_of_range` leaves `Parse`, the lines after
it are never read and no warning is written for it.  The other malformed lines that
the claim lists (an empty line, a bare `#`, `#Q foo`, a non-numeric cell line) do get
one warning each, and `Parse` returns. -/
theorem Parse_bare_N_throws (b0 s0 : Int) :
    ((PresetParser.create "preset.txt".toList b0 s0).Parse
        (fun _ => some ["Name".toList, "#N".toList, "1 1".toList]) [] []).thrown =
      some Exn.out_of_range ∧
    ((PresetParser.create "preset.txt".toList b0 s0).Parse
        (fun _ => some ["Name".toList, "#N".toList, "1 1".toList]) [] []).state.cout = [] ∧
    ((PresetParser.create "preset.txt".toList b0 s0).Parse
        (fun _ => some ["Name".toList, "#N".toList, "1 1".toList]) [] []).state.ops_q = [] ∧
    ((PresetParser.create "preset.txt".toList b0 s0).Parse
        (fun _ => some ["Name".toList, [], "#".toList, "#Q foo".toList, "x y".toList,
          "1 1".toList]) [] []).thrown = none ∧
    ((PresetParser.create "preset.txt".toList b0 s0).Parse
        (fun _ => some ["Name".toList, [], "#".toList, "#Q foo".toList, "x y".toList,
          "1 1".toList]) [] []).state.cout =
      [Warning.mk 1 [], Warning.mk 2 "#".toList, Warning.mk 3 "#Q foo".toList,
        Warning.mk 4 "x y".toList] ∧
    ((PresetParser.create "preset.txt".toList b0 s0).Parse
        (fun _ => some ["Name".toList, [], "#".toList, "#Q foo".toList, "x y".toList,
          "1 1".toList]) [] []).state.ops_q = [CellOp.mk 1 1 true] := by
  exact ⟨rfl, rfl, rfl, rfl, rfl, rfl⟩

/-- C10, as the code has it: on a 3 x 3 field whose cell `(1, 1)` is alive, `LoadPreset`
with a missing file throws and the cell `(1, 1)` is dead afterwards. -/
theorem LoadPreset_missing_file_counterexample :
    ((Logic.createBS (Field.createField 3 3 (fun a b => decide (a = 1 ∧ b = 1))) 3 23).LoadPreset
        (PresetParser.create "missing.txt".toList 0 0) (fun _ => none) []).thrown =
      some (Exn.invalid_argument "Input file not found".toList) ∧
    ((Logic.createBS (Field.createField 3 3 (fun a b => decide (a = 1 ∧ b = 1))) 3 23).LoadPreset
        (PresetParser.create "missing.txt".toList 0 0) (fun _ => none) []).state.logic._field_ptr.getAt
          1 1 ≠
      (Logic.createBS (Field.createField 3 3 (fun a b => decide (a = 1 ∧ b = 1)))
        3 23)._field_ptr.getAt 1 1 := by
  decide

/-- C10 amended: when the preset file does not exist, `LoadPreset` throws
`std::invalid_argument`; the rule `(b, s)`, the dimensions, the queue, the parser and the
output are what they were before the call, and the grid has been cleared: on a field
with `n, m > 0` every cell is dead. -/
theorem LoadPreset_missing_file (l : Logic) (p : PresetParser)
    (disk : List Char → Option (List (List Char))) (cout : List Warning)
    (hmiss : disk p._inputFile = none) :
    (l.LoadPreset p disk cout).thrown = some (Exn.invalid_argument "Input file not found".toList) ∧
    (l.LoadPreset p disk cout).state.logic.b = l.b ∧
    (l.LoadPreset p disk cout).state.logic.s = l.s ∧
    (l.LoadPreset p disk cout).state.logic._field_ptr.n = l._field_ptr.n ∧
    (l.LoadPreset p disk cout).state.logic._field_ptr.m = l._field_ptr.m ∧
    (l.LoadPreset p disk cout).state.logic.ops_q = l.ops_q ∧
    (l.LoadPreset p disk cout).state.prepar = p ∧
    (l.LoadPreset p disk cout).state.cout = cout ∧
    (0 < l._field_ptr.n → 0 < l._field_ptr.m →
      ∀ x y : Int, (l.LoadPreset p disk cout).state.logic._field_ptr.getAt x y = false) := by
  have h : l.LoadPreset p disk cout =
      .threw (Exn.invalid_argument "Input file not found".toList)
        { logic := { l with _field_ptr := l._field_ptr.Clear }, prepar := p, cout := cout } := by
    simp [Logic.LoadPreset, PresetParser.Parse, hmiss]
  rw [h]
  refine ⟨rfl, rfl, rfl, rfl, rfl, rfl, rfl, rfl, ?_⟩
  intro hn hm x y
  exact Clear_getAt l._field_ptr hn hm x y

/-- C10 amended, on a 3 x 3 field whose cell `(1, 1)` is alive. -/
theorem LoadPreset_missing_file_witness :
    ((Logic.createBS (Field.createField 3 3 (fun a b => decide (a = 1 ∧ b = 1))) 3 23).LoadPreset
        (PresetParser.create "missing.txt".toList 0 0) (fun _ => none) []).state.logic.b = 3 ∧
    ((Logic.createBS (Field.createField 3 3 (fun a b => decide (a = 1 ∧ b = 1))) 3 23).LoadPreset
        (PresetParser.create "missing.txt".toList 0 0) (fun _ => none) []).state.logic.s = 23 ∧
    ((Logic.createBS (Field.createField 3 3 (fun a b => decide (a = 1 ∧ b = 1))) 3 23).LoadPreset
        (PresetParser.create "missing.txt".toList 0 0) (fun _ => none)
        []).state.logic._field_ptr.getAt 1 1 = false :=
  ⟨(LoadPreset_missing_file
      (Logic.createBS (Field.createField 3 3 (fun a b => decide (a = 1 ∧ b = 1))) 3 23)
      (PresetParser.create "missing.txt".toList 0 0) (fun _ => none) [] rfl).2.1,
   (LoadPreset_missing_file
      (Logic.createBS (Field.createField 3 3 (fun a b => decide (a = 1 ∧ b = 1))) 3 23)
      (PresetParser.create "missing.txt".toList 0 0) (fun _ => none) [] rfl).2.2.1,
   (LoadPreset_missing_file
      (Logic.createBS (Field.createField 3 3 (fun a b => decide (a = 1 ∧ b = 1))) 3 23)
      (PresetParser.create "missing.txt".toList 0 0) (fun _ => none) [] rfl).2.2.2.2.2.2.2.2
        (by decide) (by decide) 1 1⟩

/-! ## Reading decimal numerals -/

theorem digitChar_facts (d : Nat) (hd : d < 10) :
    isdigit (digitChar d) = true ∧ digitVal (digitChar d) = (d : Int) ∧
    isspace (digitChar d) = false ∧ digitChar d ≠ '#' ∧ digitChar d ≠ '-' ∧
    digitChar d ≠ '+' := by
  interval_cases d <;> decide

theorem readDigits_map (rest : List Char) (hrest : ∀ c cs, rest = c :: cs → isdigit c = false)
    (ds : List Nat) :
    (∀ d ∈ ds, d < 10) → ∀ (acc : Int) (k : Nat),
      readDigits (ds.map digitChar ++ rest) acc k =
        (ds.foldl (fun (a : Int) (d : Nat) => a * 10 + (d : Int)) acc, k + ds.length, rest) := by
  induction ds with
  | nil =>
    intro _ acc k
    cases rest with
    | nil => rfl
    | cons c cs => simp [readDigits, hrest c cs rfl]
  | cons d ds ih =>
    intro hds acc k
    obtain ⟨h1, h2, -⟩ := digitChar_facts d (hds d (List.mem_cons_self _ _))
    rw [List.map_cons, List.cons_append, readDigits, if_pos h1, h2,
      ih (fun e he => hds e (List.mem_cons_of_mem _ he))]
    have hlen : k + 1 + ds.length = k + (d :: ds).length := by
      rw [List.length_cons]; omega
    rw [hlen, List.foldl_cons]

theorem horner_digits (L : List Nat) :
    L.reverse.foldl (fun (a : Int) (d : Nat) => a * 10 + (d : Int)) 0 = ((Nat.ofDigits 10 L : Nat) : Int) := by
  rw [List.foldl_reverse]
  induction L with
  | nil => simp
  | cons d L ih =>
    rw [List.foldr_cons, ih, Nat.ofDigits_cons]
    push_cast
    ring

/-- A decimal numeral is a non-empty list of digit characters whose value, read most
significant digit first, is the number. -/
theorem decimalNat_digits (k : Nat) :
    ∃ ds : List Nat, decimalNat k = ds.map digitChar ∧ (∀ d ∈ ds, d < 10) ∧ 0 < ds.length ∧
      ds.foldl (fun (a : Int) (d : Nat) => a * 10 + (d : Int)) 0 = (k : Int) := by
  by_cases hk : k = 0
  · subst hk
    refine ⟨[0], by decide, by simp, by simp, by simp⟩
  · refine ⟨(Nat.digits 10 k).reverse, by simp [decimalNat, hk], ?_, ?_, ?_⟩
    · intro d hd
      exact Nat.digits_lt_base (by omega) (List.mem_reverse.mp hd)
    · rw [List.length_reverse]
      exact List.length_pos.mpr (Nat.digits_ne_nil_iff_ne_zero.mpr hk)
    · rw [horner_digits, Nat.ofDigits_digits]

theorem horner_zeros (z : Nat) :
    (List.replicate z 0).foldl (fun (a : Int) (d : Nat) => a * 10 + (d : Int)) 0 = 0 := by
  induction z with
  | zero => rfl
  | succ z ih =>
    rw [List.replicate_succ, List.foldl_cons]
    simpa using ih

/-- Leading zeros and a decimal numeral make a non-empty list of digit characters
whose value, read most significant digit first, is the number. -/
theorem zeros_decimalNat_digits (z k : Nat) :
    ∃ ds : List Nat, List.replicate z '0' ++ decimalNat k = ds.map digitChar ∧
      (∀ d ∈ ds, d < 10) ∧ 0 < ds.length ∧
      ds.foldl (fun (a : Int) (d : Nat) => a * 10 + (d : Int)) 0 = (k : Int) := by
  obtain ⟨ds, h1, h2, h3, h4⟩ := decimalNat_digits k
  refine ⟨List.replicate z 0 ++ ds, ?_, ?_, ?_, ?_⟩
  · rw [List.map_append, List.map_replicate, h1]
    rfl
  · intro d hd
    rcases List.mem_append.mp hd with hz | hk
    · rw [(List.mem_replicate.mp hz).2]
      decide
    · exact h2 d hk
  · rw [List.length_append]
    omega
  · rw [List.foldl_append, horner_zeros, h4]

/-- White space is neither a digit nor `#`. -/
theorem isspace_facts (c : Char) (h : isspace c = true) : isdigit c = false ∧ c ≠ '#' := by
  unfold isspace at h
  simp only [Bool.or_eq_true, decide_eq_true_eq] at h
  rcases h with ((((h | h) | h) | h) | h) | h <;> subst h <;> decide

/-- The first character of a numeral is not white space and not `#`. -/
theorem Numeral.text_head (u : Numeral) :
    ∃ c cs, u.text = c :: cs ∧ isspace c = false ∧ c ≠ '#' := by
  obtain ⟨ds, h1, h2, h3, -⟩ := zeros_decimalNat_digits u.zeros u.magnitude
  unfold Numeral.text
  cases u.sign with
  | absent =>
    cases ds with
    | nil => exact absurd h3 (Nat.lt_irrefl 0)
    | cons d ds =>
      obtain ⟨-, -, h5, h6, -⟩ := digitChar_facts d (h2 d (List.mem_cons_self _ _))
      exact ⟨digitChar d, ds.map digitChar, by rw [h1]; rfl, h5, h6⟩
  | plus => exact ⟨'+', _, rfl, by decide, by decide⟩
  | minus => exact ⟨'-', _, rfl, by decide, by decide⟩

/-- Reading a numeral gives the integer that it denotes and stops right after it. -/
theorem readInt_numeral (u : Numeral) (rest : List Char)
    (hrest : ∀ c cs, rest = c :: cs → isdigit c = false) :
    readInt (u.text ++ rest) = some (u.value, rest) := by
  obtain ⟨ds, h1, h2, h3, h4⟩ := zeros_decimalNat_digits u.zeros u.magnitude
  have hread := readDigits_map rest hrest ds h2 0 0
  rw [← h1, h4] at hread
  have hne : ¬ (0 + ds.length = 0) := by omega
  unfold Numeral.text Numeral.value
  cases hs : u.sign with
  | absent =>
    have hhead : ∃ d tl, d < 10 ∧
        List.replicate u.zeros '0' ++ decimalNat u.magnitude = digitChar d :: tl := by
      cases ds with
      | nil => exact absurd h3 (Nat.lt_irrefl 0)
      | cons d ds => exact ⟨d, ds.map digitChar, h2 d (List.mem_cons_self _ _), by rw [h1]; rfl⟩
    obtain ⟨d, tl, hd, hhead⟩ := hhead
    obtain ⟨-, -, -, -, h5, h6⟩ := digitChar_facts d hd
    have e1 : (Sign.absent.text ++
        (List.replicate u.zeros '0' ++ decimalNat u.magnitude) ++ rest).head? =
        some (digitChar d) := by
      rw [hhead]; rfl
    have n1 : ¬ (some (digitChar d) = some '-') := fun h => h5 (Option.some.inj h)
    have n2 : ¬ (some (digitChar d) = some '+') := fun h => h6 (Option.some.inj h)
    have etext : Sign.absent.text ++ (List.replicate u.zeros '0' ++ decimalNat u.magnitude) ++
        rest = List.replicate u.zeros '0' ++ decimalNat u.magnitude ++ rest := rfl
    unfold readInt
    simp only [e1, n1, n2, decide_False, Bool.or_self, Bool.false_eq_true, if_false]
    rw [etext, hread]
    simp only [hne, if_false, reduceCtorEq]
  | plus =>
    have etext : Sign.plus.text ++ (List.replicate u.zeros '0' ++ decimalNat u.magnitude) ++
        rest = '+' :: (List.replicate u.zeros '0' ++ decimalNat u.magnitude ++ rest) := rfl
    rw [etext]
    unfold readInt
    simp only [List.head?_cons, List.tail_cons, show ¬ (some '+' = some '-') by decide,
      decide_False, decide_True, Bool.false_or, if_true, Bool.false_eq_true, if_false, hread,
      hne, reduceCtorEq]
  | minus =>
    have etext : Sign.minus.text ++ (List.replicate u.zeros '0' ++ decimalNat u.magnitude) ++
        rest = '-' :: (List.replicate u.zeros '0' ++ decimalNat u.magnitude ++ rest) := rfl
    rw [etext]
    unfold readInt
    simp only [List.head?_cons, List.tail_cons, decide_True, Bool.true_or, if_true, hread,
      hne, if_false]

/-- `stream >> x` on a good stream that holds, after white space, the numeral of an
`int` followed by a non-digit or by nothing. -/
theorem extractInt_numeral (st : IStream) (u : Numeral) (rest : List Char)
    (hfail : st.failbit = false) (heof : st.eofbit = false)
    (hbuf : st.buf.dropWhile isspace = u.text ++ rest)
    (hrest : ∀ c cs, rest = c :: cs → isdigit c = false)
    (hlo : INT_MIN ≤ u.value) (hhi : u.value ≤ INT_MAX) :
    st.extractInt =
      ({ buf := rest, failbit := false, eofbit := rest.isEmpty }, some u.value) := by
  obtain ⟨c, cs, htext, -, -⟩ := Numeral.text_head u
  have hr := readInt_numeral u rest hrest
  have hcons : u.text ++ rest = c :: (cs ++ rest) := by rw [htext]; rfl
  rw [hcons] at hr hbuf
  have hrange : ¬(u.value < INT_MIN ∨ INT_MAX < u.value) := by omega
  unfold IStream.extractInt
  simp only [hfail, heof, Bool.or_self, Bool.false_eq_true, if_false, hbuf, hr, hrange]

/-- White space in front of a numeral is what `dropWhile isspace` drops. -/
theorem dropWhile_space_numeral (ws : List Char) (hws : ws.all isspace = true) (u : Numeral)
    (rest : List Char) : (ws ++ (u.text ++ rest)).dropWhile isspace = u.text ++ rest := by
  obtain ⟨c, cs, htext, hc, -⟩ := Numeral.text_head u
  rw [List.dropWhile_append_of_pos (List.all_eq_true.mp hws), htext, List.cons_append,
    List.dropWhile_cons_of_neg (by simp [hc])]

theorem parseCell_text (lead : List Char) (x : Numeral) (sep : List Char) (y : Numeral)
    (trail : List Char) (q : List CellOp)
    (hwf : (PresetLine.cell lead x sep y trail).admissible = true) :
    PresetParser.parseCell (PresetLine.cell lead x sep y trail).text q =
      (true, q ++ [{ x := x.value, y := y.value, val := true }]) := by
  simp only [PresetLine.admissible, Bool.and_eq_true, Bool.not_eq_true', decide_eq_true_eq]
    at hwf
  obtain ⟨⟨⟨hlead, hsepne, hsep⟩, htrail⟩, hx0, hx1, hy0, hy1⟩ := hwf
  have hsephead : ∀ c cs, sep ++ (y.text ++ trail) = c :: cs → isdigit c = false := by
    intro c cs h
    cases sep with
    | nil =>
      have hsign : y.sign ≠ Sign.absent := by simpa using hsepne
      unfold Numeral.text at h
      cases hs : y.sign with
      | absent => exact absurd hs hsign
      | plus =>
        rw [hs] at h
        have hc : '+' = c := List.head_eq_of_cons_eq h
        rw [← hc]
        decide
      | minus =>
        rw [hs] at h
        have hc : '-' = c := List.head_eq_of_cons_eq h
        rw [← hc]
        decide
    | cons a as =>
      have hca : a = c := List.head_eq_of_cons_eq h
      rw [← hca]
      exact (isspace_facts a (List.all_eq_true.mp hsep a (List.mem_cons_self _ _))).1
  have htrailhead : ∀ c cs, trail = c :: cs → isdigit c = false := by
    intro c cs h
    rw [h] at htrail
    simpa using htrail
  have h1 : IStream.extractInt
      (IStream.mk (lead ++ (x.text ++ (sep ++ (y.text ++ trail)))) false false) =
      (IStream.mk (sep ++ (y.text ++ trail)) false
        (sep ++ (y.text ++ trail)).isEmpty, some x.value) :=
    extractInt_numeral _ x _ rfl rfl (dropWhile_space_numeral lead hlead x _) hsephead hx0 hx1
  have hnonempty : (sep ++ (y.text ++ trail)).isEmpty = false := by
    obtain ⟨c, cs, htext, -, -⟩ := Numeral.text_head y
    cases sep with
    | nil => rw [htext]; rfl
    | cons a as => rfl
  rw [hnonempty] at h1
  have h2 : IStream.extractInt (IStream.mk (sep ++ (y.text ++ trail)) false false) =
      (IStream.mk trail false trail.isEmpty, some y.value) :=
    extractInt_numeral _ y _ rfl rfl (dropWhile_space_numeral sep hsep y _) htrailhead hy0 hy1
  unfold PresetParser.parseCell
  simp only [PresetLine.text, h1, h2]
  rfl

/-- The first character of a cell line is not `#`. -/
theorem cell_text_head (lead : List Char) (x : Numeral) (sep : List Char) (y : Numeral)
    (trail : List Char) (hlead : lead.all isspace = true) :
    ¬ (charAt (PresetLine.cell lead x sep y trail).text 0 = '#') := by
  obtain ⟨c, cs, htext, -, hc⟩ := Numeral.text_head x
  cases lead with
  | nil =>
    show ¬ (charAt ([] ++ (x.text ++ (sep ++ (y.text ++ trail)))) 0 = '#')
    rw [htext]
    exact hc
  | cons a as =>
    exact (isspace_facts a (List.all_eq_true.mp hlead a (List.mem_cons_self _ _))).2

/-- `parseParameter` returns on every line that starts with `#` and is not the bare
`#N`. -/
theorem parseParameter_ok (p : PresetParser) (text : List Char) (hbare : text ≠ ['N']) :
    ∃ r, p.parseParameter ('#' :: text) = .ok r := by
  unfold PresetParser.parseParameter
  split
  · exact ⟨_, rfl⟩
  · split
    · rename_i h1
      have hlen : ¬ (3 > ('#' :: text).length) := by
        intro hlt
        apply hbare
        match text, h1, hlt with
        | [], h1, _ => exact absurd h1 (by decide)
        | [b], h1, _ =>
          have hb : b = 'N' := h1
          rw [hb]
        | _ :: _ :: _, _, hlt =>
          simp only [List.length_cons] at hlt
          omega
      simp only [PresetParser.parseN, substr, if_neg hlen]
      exact ⟨_, rfl⟩
    · exact ⟨_, rfl⟩

/-- One round of the line loop of `Parse` on an admissible line: no exception, and the
queue grows by the operation of a cell line and by nothing otherwise. -/
theorem parseLoop_step (it : PresetLine) (hwf : it.admissible = true)
    (rest : List (List Char)) (count : Int) (st : ParseState) :
    ∃ st1 : ParseState, parseLoop (it.text :: rest) count st = parseLoop rest (count + 1) st1 ∧
      ∀ o, o ∈ st1.ops_q ↔ o ∈ st.ops_q ∨ ∃ lead x sep y trail,
        it = PresetLine.cell lead x sep y trail ∧
        o = { x := x.value, y := y.value, val := true } := by
  cases it with
  | parameter text =>
    have h0 : charAt (PresetLine.parameter text).text 0 = '#' := rfl
    have hbare : text ≠ ['N'] := by simpa [PresetLine.admissible] using hwf
    obtain ⟨r, hr⟩ := parseParameter_ok st.prepar text hbare
    have htext : (PresetLine.parameter text).text = '#' :: text := rfl
    rw [parseLoop, if_pos h0]
    simp only [htext, hr]
    refine ⟨_, rfl, fun o => ?_⟩
    have hq : (if (!r.1) = true then
          ({ prepar := r.2, ops_q := st.ops_q,
             cout := st.cout ++ [{ count := count + 1, line := '#' :: text }] } : ParseState)
        else { prepar := r.2, ops_q := st.ops_q, cout := st.cout }).ops_q = st.ops_q := by
      cases r.1 <;> rfl
    rw [hq]
    constructor
    · exact Or.inl
    · rintro (h | ⟨lead, x, sep, y, trail, h, _⟩)
      · exact h
      · cases h
  | cell lead x sep y trail =>
    have hlead : lead.all isspace = true := by
      simp only [PresetLine.admissible, Bool.and_eq_true] at hwf
      exact hwf.1.1.1
    have h0 := cell_text_head lead x sep y trail hlead
    have hp := parseCell_text lead x sep y trail st.ops_q hwf
    rw [parseLoop, if_neg h0]
    simp only [hp]
    refine ⟨_, rfl, fun o => ?_⟩
    simp only [Bool.not_true, Bool.false_eq_true, if_false, List.mem_append,
      List.mem_singleton, PresetLine.cell.injEq]
    constructor
    · rintro (h | h)
      · exact Or.inl h
      · exact Or.inr ⟨lead, x, sep, y, trail, ⟨rfl, rfl, rfl, rfl, rfl⟩, h⟩
    · rintro (h | ⟨lead', x', sep', y', trail', ⟨rfl, rfl, rfl, rfl, rfl⟩, h⟩)
      · exact Or.inl h
      · exact Or.inr h

/-- The line loop of `Parse` on admissible lines returns, and the queue then holds
what it held before and one operation `(x, y, true)` for every cell line. -/
theorem parseLoop_admissible (items : List PresetLine) :
    ∀ (count : Int) (st : ParseState), (∀ it ∈ items, it.admissible = true) →
      ∃ st1 : ParseState, parseLoop (items.map PresetLine.text) count st = .returned st1 ∧
        ∀ o, o ∈ st1.ops_q ↔ o ∈ st.ops_q ∨ ∃ lead x sep y trail,
          PresetLine.cell lead x sep y trail ∈ items ∧
          o = { x := x.value, y := y.value, val := true } := by
  induction items with
  | nil =>
    intro count st _
    exact ⟨st, rfl, fun o => by simp⟩
  | cons it rest ih =>
    intro count st hwf
    obtain ⟨st1, hstep, hq1⟩ := parseLoop_step it (hwf it (List.mem_cons_self _ _))
      (rest.map PresetLine.text) count st
    obtain ⟨st2, hloop, hq2⟩ := ih (count + 1) st1
      (fun e he => hwf e (List.mem_cons_of_mem _ he))
    refine ⟨st2, by rw [List.map_cons, hstep, hloop], fun o => ?_⟩
    rw [hq2, hq1]
    constructor
    · rintro ((h | ⟨lead, x, sep, y, trail, rfl, h⟩) | ⟨lead, x, sep, y, trail, hmem, h⟩)
      · exact Or.inl h
      · exact Or.inr ⟨lead, x, sep, y, trail, List.mem_cons_self _ _, h⟩
      · exact Or.inr ⟨lead, x, sep, y, trail, List.mem_cons_of_mem _ hmem, h⟩
    · rintro (h | ⟨lead, x, sep, y, trail, hmem, h⟩)
      · exact Or.inl (Or.inl h)
      · rcases List.mem_cons.mp hmem with heq | hmem'
        · exact Or.inl (Or.inr ⟨lead, x, sep, y, trail, heq.symm, h⟩)
        · exact Or.inr ⟨lead, x, sep, y, trail, hmem', h⟩

/-- C8: on a field with `n, m > 0` in any prior grid state, for an existing preset file
(`lines` is what it holds, the empty file included) whose lines after the name are
parameter lines other than the bare `#N` and cell lines, that is two integers with
values of `int` separated by white space, in any spelling (blanks or tabs, signs,
leading zeros, trailing blanks or a trailing `\r`), `LoadPreset` (entered with
the empty queue) returns and afterwards `getAt(i, j)` is alive if and only if `(i, j)`
is congruent modulo `n` and modulo `m` to the coordinates of some cell line of the
file; so a cell that was alive before and is not listed is dead.  The dimensions stay
as they were. -/
theorem LoadPreset_cells (l : Logic) (p : PresetParser)
    (disk : List Char → Option (List (List Char))) (cout : List Warning)
    (lines : List (List Char)) (items : List PresetLine)
    (hn : 0 < l._field_ptr.n) (hm : 0 < l._field_ptr.m) (hq : l.ops_q = [])
    (hfile : disk p._inputFile = some lines)
    (hitems : lines.tail = items.map PresetLine.text)
    (hwf : ∀ it ∈ items, it.admissible = true) :
    (l.LoadPreset p disk cout).thrown = none ∧
    (l.LoadPreset p disk cout).state.logic._field_ptr.n = l._field_ptr.n ∧
    (l.LoadPreset p disk cout).state.logic._field_ptr.m = l._field_ptr.m ∧
    ∀ i j : Int, (l.LoadPreset p disk cout).state.logic._field_ptr.getAt i j = true ↔
      ∃ lead x sep y trail, PresetLine.cell lead x sep y trail ∈ items ∧
        i ≡ x.value [ZMOD l._field_ptr.n] ∧ j ≡ y.value [ZMOD l._field_ptr.m] := by
  obtain ⟨st1, hloop, hq1⟩ := parseLoop_admissible items 0
    { prepar := { p with _presetName := lines.headD [] }, ops_q := [], cout := cout } hwf
  have hload : l.LoadPreset p disk cout = .returned
      { logic := { _field_ptr := applyLoop st1.ops_q l._field_ptr.Clear, ops_q := [],
                   b := st1.prepar.b, s := st1.prepar.s },
        prepar := { st1.prepar with parsed := true }, cout := st1.cout } := by
    simp only [Logic.LoadPreset, PresetParser.Parse, hfile, hq, hitems, hloop]
    rfl
  rw [hload]
  refine ⟨rfl, ?_, ?_, ?_⟩
  · show (applyLoop st1.ops_q l._field_ptr.Clear).n = l._field_ptr.n
    rw [applyLoop_n]; rfl
  · show (applyLoop st1.ops_q l._field_ptr.Clear).m = l._field_ptr.m
    rw [applyLoop_m]; rfl
  · intro i j
    show (applyLoop st1.ops_q l._field_ptr.Clear).getAt i j = true ↔ _
    have hn' : 0 < l._field_ptr.Clear.n := hn
    have hm' : 0 < l._field_ptr.Clear.m := hm
    constructor
    · intro halive
      by_contra hnone
      have hno : ∀ op ∈ st1.ops_q, ¬(i % l._field_ptr.Clear.n = op.x % l._field_ptr.Clear.n ∧
          j % l._field_ptr.Clear.m = op.y % l._field_ptr.Clear.m) := by
        intro op hop hmatch
        rcases (hq1 op).mp hop with h | ⟨lead, x, sep, y, trail, hmem, rfl⟩
        · cases h
        · exact hnone ⟨lead, x, sep, y, trail, hmem, hmatch.1, hmatch.2⟩
      rw [getAt_applyLoop_of_no_match i j _ _ hn' hm' hno,
        Clear_getAt l._field_ptr hn hm] at halive
      exact Bool.false_ne_true halive
    · rintro ⟨lead, x, sep, y, trail, hmem, hx, hy⟩
      apply getAt_applyLoop_of_match i j true _ _ hn' hm'
      · exact ⟨{ x := x.value, y := y.value, val := true },
          (hq1 _).mpr (Or.inr ⟨lead, x, sep, y, trail, hmem, rfl⟩), hx, hy⟩
      · intro op hop _
        rcases (hq1 op).mp hop with h | ⟨lead', x', sep', y', trail', _, rfl⟩
        · cases h
        · rfl

/-- C8 on a 5 x 5 field whose cells are all alive, with the blinker preset of the
specification in which the second cell line is written with a tab, a sign, two blanks,
a leading zero and the `\r` of a CRLF line end, and the third has a trailing blank: the
load returns, and the cell addressed as `(6, -4)`, which is the listed cell `(1, 1)`,
is alive. -/
theorem LoadPreset_cells_witness :
    ((Logic.createBS (Field.createField 5 5 (fun _ _ => true)) 3 23).LoadPreset
        (PresetParser.create "blinker.txt".toList 0 0)
        (fun _ => some ["Blinker".toList, "#R B3/S23".toList, "0 1".toList,
          "\t+1  01\r".toList, "2 1 ".toList]) []).thrown = none ∧
    ((Logic.createBS (Field.createField 5 5 (fun _ _ => true)) 3 23).LoadPreset
        (PresetParser.create "blinker.txt".toList 0 0)
        (fun _ => some ["Blinker".toList, "#R B3/S23".toList, "0 1".toList,
          "\t+1  01\r".toList, "2 1 ".toList]) []).state.logic._field_ptr.getAt 6 (-4) =
      true :=
  ⟨(LoadPreset_cells (Logic.createBS (Field.createField 5 5 (fun _ _ => true)) 3 23)
      (PresetParser.create "blinker.txt".toList 0 0)
      (fun _ => some ["Blinker".toList, "#R B3/S23".toList, "0 1".toList,
        "\t+1  01\r".toList, "2 1 ".toList]) []
      ["Blinker".toList, "#R B3/S23".toList, "0 1".toList, "\t+1  01\r".toList,
        "2 1 ".toList]
      [PresetLine.parameter "R B3/S23".toList,
        PresetLine.cell [] (Numeral.mk Sign.absent 0 0) [' '] (Numeral.mk Sign.absent 0 1) [],
        PresetLine.cell ['\t'] (Numeral.mk Sign.plus 0 1) [' ', ' ']
          (Numeral.mk Sign.absent 1 1) ['\r'],
        PresetLine.cell [] (Numeral.mk Sign.absent 0 2) [' '] (Numeral.mk Sign.absent 0 1)
          [' ']]
      (by decide) (by decide) rfl rfl
      (by simp [PresetLine.text, Numeral.text, Sign.text, decimalNat, digitChar,
        List.replicate])
      (by decide)).1,
   ((LoadPreset_cells (Logic.createBS (Field.createField 5 5 (fun _ _ => true)) 3 23)
      (PresetParser.create "blinker.txt".toList 0 0)
      (fun _ => some ["Blinker".toList, "#R B3/S23".toList, "0 1".toList,
        "\t+1  01\r".toList, "2 1 ".toList]) []
      ["Blinker".toList, "#R B3/S23".toList, "0 1".toList, "\t+1  01\r".toList,
        "2 1 ".toList]
      [PresetLine.parameter "R B3/S23".toList,
        PresetLine.cell [] (Numeral.mk Sign.absent 0 0) [' '] (Numeral.mk Sign.absent 0 1) [],
        PresetLine.cell ['\t'] (Numeral.mk Sign.plus 0 1) [' ', ' ']
          (Numeral.mk Sign.absent 1 1) ['\r'],
        PresetLine.cell [] (Numeral.mk Sign.absent 0 2) [' '] (Numeral.mk Sign.absent 0 1)
          [' ']]
      (by decide) (by decide) rfl rfl
      (by simp [PresetLine.text, Numeral.text, Sign.text, decimalNat, digitChar,
        List.replicate])
      (by decide)).2.2.2 6 (-4)).mpr
     ⟨['\t'], Numeral.mk Sign.plus 0 1, [' ', ' '], Numeral.mk Sign.absent 1 1, ['\r'],
       by decide, by decide, by decide⟩⟩

/-! ## What a tick and the default load leave alone -/

@[simp]
theorem Tick_ops_q (l : Logic) : l.Tick.ops_q = [] := rfl

theorem DefaultPreset_n (f : Field) : f.DefaultPreset.n = f.n := rfl

theorem DefaultPreset_m (f : Field) : f.DefaultPreset.m = f.m := rfl

/-- C18: for every engine state, `Tick` and `LoadDefault` leave the birth value `b`, the
survival value `s` and the dimensions `n`, `m` of the field exactly as they were. -/
theorem rule_and_size_kept (l : Logic) :
    (l.Tick.b = l.b ∧ l.Tick.s = l.s ∧
      l.Tick._field_ptr.n = l._field_ptr.n ∧ l.Tick._field_ptr.m = l._field_ptr.m) ∧
    (l.LoadDefault.b = l.b ∧ l.LoadDefault.s = l.s ∧
      l.LoadDefault._field_ptr.n = l._field_ptr.n ∧
      l.LoadDefault._field_ptr.m = l._field_ptr.m) := by
  refine ⟨⟨rfl, rfl, ?_, ?_⟩, ⟨rfl, rfl, rfl, rfl⟩⟩
  · show (applyLoop l.scanField.ops_q l._field_ptr).n = l._field_ptr.n
    exact applyLoop_n _ _
  · show (applyLoop l.scanField.ops_q l._field_ptr).m = l._field_ptr.m
    exact applyLoop_m _ _

/-! ## The default preset -/

theorem getAt_setAt_of (g : Field) (n m : Int) (hgn : g.n = n) (hgm : g.m = m) (hn : 0 < n)
    (hm : 0 < m) (x y x' y' : Int) (v : Bool) :
    (g.setAt x y v).getAt x' y' =
      if x' % n = x % n ∧ y' % m = y % m then v else g.getAt x' y' := by
  subst hgn hgm
  exact getAt_setAt g hn hm x y x' y' v

/-- The grid after `DefaultPreset`, read through `getAt`: the five `setAt` calls,
latest first, over the cleared grid. -/
theorem DefaultPreset_getAt (f : Field) (hn : 0 < f.n) (hm : 0 < f.m) (i j : Int) :
    f.DefaultPreset.getAt i j =
      if i % f.n = 1 % f.n ∧ j % f.m = 1 % f.m then true
      else if i % f.n = 0 % f.n ∧ j % f.m = 1 % f.m then true
      else if i % f.n = -1 % f.n ∧ j % f.m = 1 % f.m then true
      else if i % f.n = 1 % f.n ∧ j % f.m = 0 % f.m then true
      else if i % f.n = 0 % f.n ∧ j % f.m = -1 % f.m then true
      else false := by
  unfold Field.DefaultPreset
  simp only []
  rw [getAt_setAt_of ((((f.Clear.setAt 0 (-1) true).setAt 1 0 true).setAt (-1) 1 true).setAt
      0 1 true) f.n f.m rfl rfl hn hm,
    getAt_setAt_of (((f.Clear.setAt 0 (-1) true).setAt 1 0 true).setAt (-1) 1 true)
      f.n f.m rfl rfl hn hm,
    getAt_setAt_of ((f.Clear.setAt 0 (-1) true).setAt 1 0 true) f.n f.m rfl rfl hn hm,
    getAt_setAt_of (f.Clear.setAt 0 (-1) true) f.n f.m rfl rfl hn hm,
    getAt_setAt_of f.Clear f.n f.m rfl rfl hn hm, Clear_getAt f hn hm]

theorem neg_one_emod (k : Int) (hk : 2 ≤ k) : -1 % k = k - 1 := by
  rw [← Int.add_emod_self, Int.emod_eq_of_lt (by omega) (by omega)]
  omega

/-- C17: on a field with `n, m > 0` in any prior state, after `DefaultPreset`, and
after `LoadDefault`, the cell `getAt(i, j)` is alive if and only if `(i, j)` is congruent
to one of `(0,-1)`, `(1,0)`, `(-1,1)`, `(0,1)`, `(1,1)`; when `n >= 3` and `m >= 3`
these are five distinct stored cells, `(0, m-1)`, `(1, 0)`, `(n-1, 1)`, `(0, 1)`,
`(1, 1)`, and exactly they are alive. -/
theorem DefaultPreset_cells (l : Logic) (hn : 0 < l._field_ptr.n) (hm : 0 < l._field_ptr.m) :
    (∀ i j : Int, l._field_ptr.DefaultPreset.getAt i j = true ↔
      (i ≡ 0 [ZMOD l._field_ptr.n] ∧ j ≡ -1 [ZMOD l._field_ptr.m]) ∨
      (i ≡ 1 [ZMOD l._field_ptr.n] ∧ j ≡ 0 [ZMOD l._field_ptr.m]) ∨
      (i ≡ -1 [ZMOD l._field_ptr.n] ∧ j ≡ 1 [ZMOD l._field_ptr.m]) ∨
      (i ≡ 0 [ZMOD l._field_ptr.n] ∧ j ≡ 1 [ZMOD l._field_ptr.m]) ∨
      (i ≡ 1 [ZMOD l._field_ptr.n] ∧ j ≡ 1 [ZMOD l._field_ptr.m])) ∧
    (∀ i j : Int, l.LoadDefault._field_ptr.getAt i j =
      l._field_ptr.DefaultPreset.getAt i j) ∧
    (3 ≤ l._field_ptr.n → 3 ≤ l._field_ptr.m →
      [((0 : Int), l._field_ptr.m - 1), (1, 0), (l._field_ptr.n - 1, 1), (0, 1),
        (1, 1)].Nodup ∧
      ∀ i j : Int, 0 ≤ i → i < l._field_ptr.n → 0 ≤ j → j < l._field_ptr.m →
        (l._field_ptr.DefaultPreset.getAt i j = true ↔
          (i, j) ∈ [((0 : Int), l._field_ptr.m - 1), (1, 0), (l._field_ptr.n - 1, 1), (0, 1),
            (1, 1)])) := by
  have hiff : ∀ i j : Int, l._field_ptr.DefaultPreset.getAt i j = true ↔
      (i ≡ 0 [ZMOD l._field_ptr.n] ∧ j ≡ -1 [ZMOD l._field_ptr.m]) ∨
      (i ≡ 1 [ZMOD l._field_ptr.n] ∧ j ≡ 0 [ZMOD l._field_ptr.m]) ∨
      (i ≡ -1 [ZMOD l._field_ptr.n] ∧ j ≡ 1 [ZMOD l._field_ptr.m]) ∨
      (i ≡ 0 [ZMOD l._field_ptr.n] ∧ j ≡ 1 [ZMOD l._field_ptr.m]) ∨
      (i ≡ 1 [ZMOD l._field_ptr.n] ∧ j ≡ 1 [ZMOD l._field_ptr.m]) := by
    intro i j
    rw [DefaultPreset_getAt _ hn hm]
    unfold Int.ModEq
    split_ifs <;> tauto
  refine ⟨hiff, ?_, ?_⟩
  · intro i j
    show l._field_ptr.Clear.DefaultPreset.getAt i j = _
    rw [DefaultPreset_getAt l._field_ptr.Clear hn hm, DefaultPreset_getAt l._field_ptr hn hm]
    rfl
  · intro hn3 hm3
    constructor
    · simp only [List.nodup_cons, List.mem_cons, List.mem_singleton, Prod.mk.injEq,
        List.not_mem_nil, List.nodup_nil, not_or, not_false_eq_true, and_true]
      omega
    · intro i j hi0 hi hj0 hj
      rw [hiff]
      unfold Int.ModEq
      rw [Int.emod_eq_of_lt hi0 hi, Int.emod_eq_of_lt hj0 hj, neg_one_emod _ (by omega),
        neg_one_emod _ (by omega),
        Int.emod_eq_of_lt (show (0 : Int) ≤ 0 by omega) hn,
        Int.emod_eq_of_lt (show (0 : Int) ≤ 0 by omega) hm,
        Int.emod_eq_of_lt (show (0 : Int) ≤ 1 by omega) (show 1 < l._field_ptr.n by omega),
        Int.emod_eq_of_lt (show (0 : Int) ≤ 1 by omega) (show 1 < l._field_ptr.m by omega)]
      simp only [List.mem_cons, List.mem_singleton, Prod.mk.injEq, List.not_mem_nil, or_false]

/-- C17 on the program's 20 x 60 field with every cell alive before: the cell addressed
as `(-1, 61)`, congruent to `(-1, 1)`, is alive after `DefaultPreset`, and the five
seed cells are distinct. -/
theorem DefaultPreset_cells_witness :
    (Logic.createBS (Field.createField 20 60 (fun _ _ => true))
        3 23)._field_ptr.DefaultPreset.getAt (-1) 61 = true ∧
    [((0 : Int), (Logic.createBS (Field.createField 20 60 (fun _ _ => true))
        3 23)._field_ptr.m - 1), (1, 0),
      ((Logic.createBS (Field.createField 20 60 (fun _ _ => true)) 3 23)._field_ptr.n - 1, 1),
      (0, 1), (1, 1)].Nodup :=
  ⟨((DefaultPreset_cells (Logic.createBS (Field.createField 20 60 (fun _ _ => true)) 3 23)
      (by decide) (by decide)).1 (-1) 61).mpr
      (Or.inr (Or.inr (Or.inl ⟨by decide, by decide⟩))),
   ((DefaultPreset_cells (Logic.createBS (Field.createField 20 60 (fun _ _ => true)) 3 23)
      (by decide) (by decide)).2.2 (by decide) (by decide)).1⟩

/-! ## Constructing a field -/

theorem allocRows_ok (alloc : Nat → Bool) (rows : List Nat) (m : Int)
    (h : rows = [] ∨ 0 ≤ m) (hgranted : ∀ i ∈ rows, alloc (i + 1) = true) :
    allocRows alloc rows m = .ok () := by
  induction rows with
  | nil => rfl
  | cons r rest ih =>
    have hm : ¬ m < 0 := by
      rcases h with h | h
      · cases h
      · omega
    rw [allocRows]
    simp only [newArray, if_neg hm, hgranted r (List.mem_cons_self _ _), if_true]
    exact ih (Or.inr (by omega)) (fun i hi => hgranted i (List.mem_cons_of_mem _ hi))

theorem allocRows_error (alloc : Nat → Bool) (rows : List Nat) (m : Int) (hrows : rows ≠ [])
    (hm : m < 0) : allocRows alloc rows m = .error Exn.bad_alloc := by
  cases rows with
  | nil => exact absurd rfl hrows
  | cons r rest =>
    rw [allocRows]
    simp only [newArray, if_pos hm]

theorem constructWith_ok (alloc : Nat → Bool) (n m : Int) (heap : Int → Int → Bool)
    (h : n = 0 ∨ (0 < n ∧ 0 ≤ m)) (hgranted : ∀ k : Nat, (k : Int) ≤ n → alloc k = true) :
    Field.constructWith alloc n m heap = .ok (Field.createField n m heap) := by
  have hn : ¬ n < 0 := by omega
  have h0 : alloc 0 = true := hgranted 0 (by omega)
  have hrows : allocRows alloc (List.range n.toNat) m = .ok () := by
    apply allocRows_ok
    · rcases h with h | h
      · left
        subst h
        rfl
      · exact Or.inr h.2
    · intro i hi
      have hi' := List.mem_range.mp hi
      exact hgranted (i + 1) (by omega)
  simp only [Field.constructWith, newArray, if_neg hn, h0, if_true, hrows]

theorem constructWith_error (alloc : Nat → Bool) (n m : Int) (heap : Int → Int → Bool)
    (h : n < 0 ∨ (0 < n ∧ m < 0)) :
    Field.constructWith alloc n m heap = .error Exn.bad_alloc := by
  rcases h with h | ⟨hn, hm⟩
  · simp only [Field.constructWith, newArray, if_pos h]
  · have hn' : ¬ n < 0 := by omega
    have hne : List.range n.toNat ≠ [] := by
      intro he
      have hlen := congrArg List.length he
      simp only [List.length_range, List.length_nil] at hlen
      omega
    simp only [Field.constructWith, newArray, if_neg hn']
    cases alloc 0
    · rfl
    · simp only [if_true, allocRows_error alloc _ m hne hm]

/-- Whatever the allocator does, a field that the constructor returns has the
dimensions it was given and the fresh storage as its cells. -/
theorem constructWith_returns (alloc : Nat → Bool) (n m : Int) (heap : Int → Int → Bool)
    (f : Field) (h : Field.constructWith alloc n m heap = .ok f) :
    f = Field.createField n m heap := by
  unfold Field.constructWith at h
  split at h
  · cases h
  · split at h
    · cases h
    · injection h with h
      exact h.symm

theorem construct_ok (n m : Int) (heap : Int → Int → Bool)
    (h : n = 0 ∨ (0 < n ∧ 0 ≤ m)) :
    Field.construct n m heap = .ok (Field.createField n m heap) :=
  constructWith_ok (fun _ => true) n m heap h (fun _ _ => rfl)

/-- C13, as the code has it: with an allocator that grants every request, `Field(0, 5)`,
`Field(5, 0)` and `Field(0, -1)` are constructed without an error and have a zero
height or width. -/
theorem construct_zero_counterexample :
    Field.construct 0 5 (fun _ _ => false) = .ok (Field.createField 0 5 (fun _ _ => false)) ∧
    (Field.createField 0 5 (fun _ _ => false)).n = 0 ∧
    Field.construct 5 0 (fun _ _ => false) = .ok (Field.createField 5 0 (fun _ _ => false)) ∧
    (Field.createField 5 0 (fun _ _ => false)).m = 0 ∧
    Field.construct 0 (-1) (fun _ _ => false) =
      .ok (Field.createField 0 (-1) (fun _ _ => false)) :=
  ⟨rfl, rfl, rfl, rfl, rfl⟩

/-- C13 amended: constructing a field with `n < 0`, or with `n > 0` and `m < 0`, fails,
whatever the allocator does.  The constructor checks no dimension: for `n = 0` (any `m`)
and for `n > 0` with `m = 0` it yields, whenever its allocations are granted, a field
with exactly these dimensions, so a height or width of zero is possible; and a field
that it yields always has the dimensions it was given. -/
theorem construct_fails (alloc : Nat → Bool) (n m : Int) (heap : Int → Int → Bool) :
    ((n < 0 ∨ (0 < n ∧ m < 0)) →
      Field.constructWith alloc n m heap = .error Exn.bad_alloc) ∧
    ((n = 0 ∨ (0 < n ∧ m = 0)) → (∀ k : Nat, (k : Int) ≤ n → alloc k = true) →
      ∃ f, Field.constructWith alloc n m heap = .ok f ∧ f.n = n ∧ f.m = m) ∧
    (∀ f, Field.constructWith alloc n m heap = .ok f → f.n = n ∧ f.m = m) := by
  refine ⟨constructWith_error alloc n m heap, ?_, ?_⟩
  · intro h hgranted
    exact ⟨_, constructWith_ok alloc n m heap (by omega) hgranted, rfl, rfl⟩
  · intro f hf
    rw [constructWith_returns alloc n m heap f hf]
    exact ⟨rfl, rfl⟩

/-- C13 amended, at `Field(-1, 3)` and `Field(3, -1)` with an allocator that grants
every request, and at `Field(0, -2)` and `Field(3, 0)`. -/
theorem construct_fails_witness :
    Field.constructWith (fun _ => true) (-1) 3 (fun _ _ => false) = .error Exn.bad_alloc ∧
    Field.constructWith (fun _ => true) 3 (-1) (fun _ _ => false) = .error Exn.bad_alloc ∧
    (∃ f, Field.constructWith (fun _ => true) 0 (-2) (fun _ _ => false) = .ok f ∧
      f.n = 0 ∧ f.m = -2) ∧
    (∃ f, Field.constructWith (fun _ => true) 3 0 (fun _ _ => false) = .ok f ∧
      f.n = 3 ∧ f.m = 0) :=
  ⟨(construct_fails (fun _ => true) (-1) 3 (fun _ _ => false)).1 (by decide),
   (construct_fails (fun _ => true) 3 (-1) (fun _ _ => false)).1 (by decide),
   (construct_fails (fun _ => true) 0 (-2) (fun _ _ => false)).2.1 (by decide)
     (fun _ _ => rfl),
   (construct_fails (fun _ => true) 3 0 (fun _ _ => false)).2.1 (by decide)
     (fun _ _ => rfl)⟩

/-- C14, as the code has it: a `Field(3, 3)` built over storage that holds `true`
everywhere reads `getAt(0, 0)` as alive. -/
theorem construct_not_dead_counterexample :
    Field.construct 3 3 (fun _ _ => true) = .ok (Field.createField 3 3 (fun _ _ => true)) ∧
    (Field.createField 3 3 (fun _ _ => true)).getAt 0 0 = true :=
  ⟨rfl, by decide⟩

/-- C14 amended: for `n > 0` and `m > 0` the constructor returns a field of these
dimensions whose cells hold what the fresh, uninitialised storage holds: `getAt(x, y)`
is the content of the storage at `(x mod n, y mod m)`.  All cells are dead once `Clear`
has run, and `LoadDefault` leaves the grid that it leaves on any other prior state. -/
theorem construct_cells (n m : Int) (heap : Int → Int → Bool) (hn : 0 < n) (hm : 0 < m) :
    ∃ f, Field.construct n m heap = .ok f ∧ f.n = n ∧ f.m = m ∧
      (∀ x y : Int, f.getAt x y = heap (x % n) (y % m)) ∧
      (∀ x y : Int, f.Clear.getAt x y = false) := by
  refine ⟨_, construct_ok n m heap (Or.inr ⟨hn, by omega⟩), rfl, rfl, ?_, ?_⟩
  · intro x y
    exact getAt_eq (Field.createField n m heap) hn hm x y
  · intro x y
    exact Clear_getAt (Field.createField n m heap) hn hm x y

/-- C14 amended, at `Field(20, 60)` over storage that holds `true` everywhere. -/
theorem construct_cells_witness :
    ∃ f, Field.construct 20 60 (fun _ _ => true) = .ok f ∧ f.n = 20 ∧ f.m = 60 ∧
      (∀ x y : Int, f.getAt x y = (fun _ _ => true) (x % 20) (y % 60)) ∧
      (∀ x y : Int, f.Clear.getAt x y = false) :=
  construct_cells 20 60 (fun _ _ => true) (by decide) (by decide)

/-! ## The parameter lines `#N` and `#R` -/

/-- C12, as the code has it: on the line `#N hello` the comment becomes `hello`, not
` hello` (what follows the first two characters), and the line `#NX` is reported as a
failure although what follows its first two characters is not empty. -/
theorem parseN_counterexample :
    ((PresetParser.create [] 3 23).parseN "#N hello".toList).map
        (fun r => (r.1, r.2._presetComment)) = .ok (true, "hello".toList) ∧
    "hello".toList ≠ "#N hello".toList.drop 2 ∧
    ((PresetParser.create [] 3 23).parseN "#NX".toList).map
        (fun r => (r.1, r.2._presetComment)) = .ok (false, []) ∧
    "#NX".toList.drop 2 ≠ [] :=
  ⟨rfl, by decide, rfl, by decide⟩

/-- C12 amended: for every line of at least three characters, `parseN` sets the preset
comment to everything after the first three characters of the line (the `#N` and the
character that follows it), changes nothing else, and reports failure exactly when that
remainder is empty; `parseParameter` hands every line whose second character is `N`
to it. -/
theorem parseN_comment (p : PresetParser) (line : List Char) (hlen : 3 ≤ line.length) :
    p.parseN line =
      .ok (decide (line.drop 3 ≠ []), { p with _presetComment := line.drop 3 }) ∧
    (charAt line 1 = 'N' → p.parseParameter line = p.parseN line) := by
  constructor
  · have hsub : substr line 3 = .ok (line.drop 3) := by
      unfold substr
      rw [if_neg (by omega)]
    simp only [PresetParser.parseN, hsub]
    congr 2
    cases hd : line.drop 3 with
    | nil => simp
    | cons c cs => simp
  · intro hN
    simp only [PresetParser.parseParameter, hN, show ¬ ('N' = 'R') by decide, if_true, if_false]

/-- C12 amended, at the line `#N glider gun`. -/
theorem parseN_comment_witness :
    (PresetParser.create [] 3 23).parseN "#N glider gun".toList =
      .ok (decide ("#N glider gun".toList.drop 3 ≠ []),
        { PresetParser.create [] 3 23 with _presetComment := "#N glider gun".toList.drop 3 }) ∧
    (charAt "#N glider gun".toList 1 = 'N' →
      (PresetParser.create [] 3 23).parseParameter "#N glider gun".toList =
        (PresetParser.create [] 3 23).parseN "#N glider gun".toList) :=
  parseN_comment (PresetParser.create [] 3 23) "#N glider gun".toList (by decide)

/-- What `sscanf` returns: the values assigned extend those assigned before by at
most one value per conversion, and the return value is their number, or `EOF` when
there is none. -/
theorem sscanf_result (ds : List Directive) :
    ∀ (inp : List Char) (vals : List Int),
      (∃ more, (sscanf ds inp vals).2 = vals ++ more ∧ more.length ≤ conversions ds) ∧
      ((sscanf ds inp vals).1 = ((sscanf ds inp vals).2.length : Int) ∨
        ((sscanf ds inp vals).1 = -1 ∧ (sscanf ds inp vals).2 = [])) := by
  induction ds with
  | nil =>
    intro inp vals
    exact ⟨⟨[], by simp [sscanf], by simp⟩, Or.inl rfl⟩
  | cons d ds ih =>
    intro inp vals
    have hfailure : ∀ k : Nat,
        (∃ more : List Int,
          ((if vals.isEmpty then (-1 : Int) else (vals.length : Int)), vals).2 = vals ++ more ∧
          more.length ≤ k) ∧
        (((if vals.isEmpty then (-1 : Int) else (vals.length : Int)), vals).1 =
            ((((if vals.isEmpty then (-1 : Int) else (vals.length : Int)), vals).2.length : Nat) :
              Int) ∨
          (((if vals.isEmpty then (-1 : Int) else (vals.length : Int)), vals).1 = -1 ∧
            ((if vals.isEmpty then (-1 : Int) else (vals.length : Int)), vals).2 = [])) := by
      intro k
      refine ⟨⟨[], by simp, by simp⟩, ?_⟩
      cases vals with
      | nil => exact Or.inr ⟨rfl, rfl⟩
      | cons v vs => exact Or.inl rfl
    have hmismatch : ∀ k : Nat,
        (∃ more : List Int, (((vals.length : Nat) : Int), vals).2 = vals ++ more ∧
          more.length ≤ k) ∧
        ((((vals.length : Nat) : Int), vals).1 =
            (((((vals.length : Nat) : Int), vals).2.length : Nat) : Int) ∨
          ((((vals.length : Nat) : Int), vals).1 = -1 ∧
            (((vals.length : Nat) : Int), vals).2 = [])) :=
      fun k => ⟨⟨[], by simp, by simp⟩, Or.inl rfl⟩
    cases d with
    | lit c =>
      cases inp with
      | nil =>
        rw [sscanf]
        exact hfailure (conversions (Directive.lit c :: ds))
      | cons a rest =>
        rw [sscanf]
        by_cases hac : a = c
        · rw [if_pos hac]
          exact ih rest vals
        · rw [if_neg hac]
          exact hmismatch (conversions (Directive.lit c :: ds))
    | space =>
      rw [sscanf]
      exact ih (inp.dropWhile isspace) vals
    | int =>
      rw [sscanf]
      cases hdrop : inp.dropWhile isspace with
      | nil => exact hfailure (conversions (Directive.int :: ds))
      | cons a rest =>
        cases hread : readInt (a :: rest) with
        | none =>
          simp only [hread]
          exact ⟨⟨[], by simp, by simp⟩, Or.inl trivial⟩
        | some r =>
          obtain ⟨⟨more, hmore, hlen⟩, hret⟩ := ih r.2 (vals ++ [r.1])
          simp only [hread]
          refine ⟨⟨r.1 :: more, ?_, ?_⟩, hret⟩
          · show (sscanf ds r.2 (vals ++ [r.1])).2 = vals ++ r.1 :: more
            rw [hmore, List.append_assoc]
            rfl
          · show more.length + 1 ≤ conversions ds + 1
            omega

/-- When `parseR` reports failure, `s` is what it was: only the second conversion
writes `s`, and after it `sscanf` returns 2. -/
theorem parseR_failure_keeps_s (p : PresetParser) (line : List Char)
    (hfail : (p.parseR line).1 = false) : (p.parseR line).2.s = p.s := by
  obtain ⟨⟨more, hmore, hlen⟩, hret⟩ := sscanf_result formatR line []
  have hcount : conversions formatR = 2 := rfl
  rw [hcount] at hlen
  rw [List.nil_append] at hmore
  have hflag : ((sscanf formatR line []).1 == 2) = false := hfail
  have hs : (p.parseR line).2.s =
      (match (sscanf formatR line []).2 with
        | [] => p
        | [vb] => { p with b := vb }
        | vb :: vs :: _ => { p with b := vb, s := vs }).s := rfl
  rw [hs]
  rw [hmore] at hret ⊢
  match more, hlen, hret with
  | [], _, _ => rfl
  | [vb], _, _ => rfl
  | [vb, vs], _, hret =>
    exfalso
    rcases hret with h | ⟨_, h⟩
    · rw [h] at hflag
      exact Bool.noConfusion hflag
    · cases h
  | _ :: _ :: _ :: _, hlen, _ =>
    simp only [List.length_cons] at hlen
    omega

/-- C11, the code at the line `#R B5/Sx`: `sscanf` stores 5 in `b` at the first
conversion and then stops, `parseR` reports failure, and `b` has changed from 3 to 5
while `s` is still 23.  Through `LoadPreset`, a file with the lines `#R B3/S23` and
`#R B5/Sx` leaves the engine with the rule 5/23 and one warning. -/
theorem parseR_partial_match :
    ((PresetParser.create [] 3 23).parseR "#R B5/Sx".toList).1 = false ∧
    ((PresetParser.create [] 3 23).parseR "#R B5/Sx".toList).2.b = 5 ∧
    ((PresetParser.create [] 3 23).parseR "#R B5/Sx".toList).2.s = 23 ∧
    ((Logic.createBS (Field.createField 20 60 (fun _ _ => false)) 3 23).LoadPreset
        (PresetParser.create "preset.txt".toList 0 0)
        (fun _ => some ["Name".toList, "#R B3/S23".toList, "#R B5/Sx".toList]) []).thrown =
      none ∧
    ((Logic.createBS (Field.createField 20 60 (fun _ _ => false)) 3 23).LoadPreset
        (PresetParser.create "preset.txt".toList 0 0)
        (fun _ => some ["Name".toList, "#R B3/S23".toList, "#R B5/Sx".toList])
        []).state.logic.b = 5 ∧
    ((Logic.createBS (Field.createField 20 60 (fun _ _ => false)) 3 23).LoadPreset
        (PresetParser.create "preset.txt".toList 0 0)
        (fun _ => some ["Name".toList, "#R B3/S23".toList, "#R B5/Sx".toList])
        []).state.logic.s = 23 ∧
    ((Logic.createBS (Field.createField 20 60 (fun _ _ => false)) 3 23).LoadPreset
        (PresetParser.create "preset.txt".toList 0 0)
        (fun _ => some ["Name".toList, "#R B3/S23".toList, "#R B5/Sx".toList])
        []).state.cout = [Warning.mk 2 "#R B5/Sx".toList] := by
  decide

/-! ## The neighbourhood of a cell -/

/-- The Euclidean remainder of a number at most one period away from `[0, n)`. -/
theorem emod_near (a n : Int) (hn : 0 < n) (h1 : -n ≤ a) (h2 : a < 2 * n) :
    (a % n = a ∨ a % n = a + n ∨ a % n = a - n) ∧ 0 ≤ a % n ∧ a % n < n := by
  refine ⟨?_, Int.emod_nonneg _ (ne_of_gt hn), Int.emod_lt_of_pos _ hn⟩
  rcases Int.lt_or_le a 0 with hneg | hpos
  · right; left
    rw [← Int.add_emod_self, Int.emod_eq_of_lt (by omega) (by omega)]
  · rcases Int.lt_or_le a n with hlt | hge
    · left
      exact Int.emod_eq_of_lt hpos hlt
    · right; right
      have h := @Int.add_emod_self (a - n) n
      rw [Int.sub_add_cancel] at h
      rw [h, Int.emod_eq_of_lt (by omega) (by omega)]

/-- The cells that `activeCellSum` reads, with the wrapped row and column indices
named. -/
theorem neighbourCells_eq (f : Field) (hn : 3 ≤ f.n) (hm : 3 ≤ f.m) (x y : Int)
    (hx0 : 0 ≤ x) (hx : x < f.n) (hy0 : 0 ≤ y) (hy : y < f.m) :
    ∃ rm rp cm cp : Int,
      neighbourCells f x y =
        [(rm, cm), (rm, y), (rm, cp), (x, cm), (x, cp), (rp, cm), (rp, y), (rp, cp)] ∧
      (rm = x - 1 ∨ rm = x - 1 + f.n) ∧ 0 ≤ rm ∧ rm < f.n ∧
      (rp = x + 1 ∨ rp = x + 1 - f.n) ∧ 0 ≤ rp ∧ rp < f.n ∧
      (cm = y - 1 ∨ cm = y - 1 + f.m) ∧ 0 ≤ cm ∧ cm < f.m ∧
      (cp = y + 1 ∨ cp = y + 1 - f.m) ∧ 0 ≤ cp ∧ cp < f.m := by
  have hn0 : 0 < f.n := by omega
  have hm0 : 0 < f.m := by omega
  have h1 := emod_near (x - 1) f.n hn0 (by omega) (by omega)
  have h2 := emod_near (x + 1) f.n hn0 (by omega) (by omega)
  have h3 := emod_near (y - 1) f.m hm0 (by omega) (by omega)
  have h4 := emod_near (y + 1) f.m hm0 (by omega) (by omega)
  refine ⟨(x - 1) % f.n, (x + 1) % f.n, (y - 1) % f.m, (y + 1) % f.m, ?_,
    by omega, h1.2.1, h1.2.2, by omega, h2.2.1, h2.2.2,
    by omega, h3.2.1, h3.2.2, by omega, h4.2.1, h4.2.2⟩
  simp only [neighbourCells, neighbours, List.map_cons, List.map_nil,
    normalizeX_false f _ hn0, normalizeY_eq f _ hm0, Int.emod_eq_of_lt hx0 hx,
    Int.emod_eq_of_lt hy0 hy]

theorem activeCellSum_countP (l : Logic) (x y : Int) :
    l.activeCellSum x y =
      (((neighbourCells l._field_ptr x y).countP
        (fun c => l._field_ptr._field c.1 c.2) : Nat) : Int) := by
  rw [activeCellSum_eq, liveNeighbours, neighbourCells, List.countP_map]
  rfl

/-- C19: on a field with `n >= 3` and `m >= 3`, for an in-range cell `(x, y)`, the eight
positions that `activeCellSum` visits normalise to eight pairwise distinct stored cells,
all in range and none of them `(x, y)`; the sum is the number of live cells among them,
lies in `0..8`, and is the same on every grid that differs only at `(x, y)`, so it does
not depend on the value of the cell `(x, y)`. -/
theorem activeCellSum_neighbours (l : Logic) (hn : 3 ≤ l._field_ptr.n)
    (hm : 3 ≤ l._field_ptr.m) (x y : Int) (hx0 : 0 ≤ x) (hx : x < l._field_ptr.n)
    (hy0 : 0 ≤ y) (hy : y < l._field_ptr.m) :
    (neighbourCells l._field_ptr x y).Nodup ∧
    (neighbourCells l._field_ptr x y).length = 8 ∧
    (x, y) ∉ neighbourCells l._field_ptr x y ∧
    (∀ c ∈ neighbourCells l._field_ptr x y,
      0 ≤ c.1 ∧ c.1 < l._field_ptr.n ∧ 0 ≤ c.2 ∧ c.2 < l._field_ptr.m) ∧
    l.activeCellSum x y =
      (((neighbourCells l._field_ptr x y).countP
        (fun c => l._field_ptr._field c.1 c.2) : Nat) : Int) ∧
    0 ≤ l.activeCellSum x y ∧ l.activeCellSum x y ≤ 8 ∧
    (∀ l1 : Logic, l1._field_ptr.n = l._field_ptr.n → l1._field_ptr.m = l._field_ptr.m →
      (∀ a b : Int, (a, b) ≠ (x, y) → l1._field_ptr._field a b = l._field_ptr._field a b) →
      l1.activeCellSum x y = l.activeCellSum x y) ∧
    (∀ v : Bool,
      (Logic.mk (l._field_ptr.setAt x y v) l.ops_q l.b l.s).activeCellSum x y =
        l.activeCellSum x y) := by
  obtain ⟨rm, rp, cm, cp, hcells, hrm, hrm0, hrm1, hrp, hrp0, hrp1, hcm, hcm0, hcm1, hcp,
    hcp0, hcp1⟩ := neighbourCells_eq l._field_ptr hn hm x y hx0 hx hy0 hy
  have hnodup : (neighbourCells l._field_ptr x y).Nodup := by
    rw [hcells]
    simp only [List.nodup_cons, List.mem_cons, List.mem_singleton, Prod.mk.injEq,
      List.not_mem_nil, List.nodup_nil, not_or, not_false_eq_true, and_true]
    omega
  have hlen : (neighbourCells l._field_ptr x y).length = 8 := by rw [hcells]; rfl
  have hself : (x, y) ∉ neighbourCells l._field_ptr x y := by
    rw [hcells]
    simp only [List.mem_cons, List.mem_singleton, Prod.mk.injEq, List.not_mem_nil, not_or,
      or_false]
    omega
  have hrange : ∀ c ∈ neighbourCells l._field_ptr x y,
      0 ≤ c.1 ∧ c.1 < l._field_ptr.n ∧ 0 ≤ c.2 ∧ c.2 < l._field_ptr.m := by
    intro c hc
    rw [hcells] at hc
    simp only [List.mem_cons, List.mem_singleton, List.not_mem_nil, or_false] at hc
    rcases hc with rfl | rfl | rfl | rfl | rfl | rfl | rfl | rfl <;>
      exact ⟨by assumption, by assumption, by assumption, by assumption⟩
  have hle : (neighbourCells l._field_ptr x y).countP
      (fun c => l._field_ptr._field c.1 c.2) ≤ 8 := by
    rw [← hlen]
    exact List.countP_le_length _
  have hgen : ∀ l1 : Logic, l1._field_ptr.n = l._field_ptr.n →
      l1._field_ptr.m = l._field_ptr.m →
      (∀ a b : Int, (a, b) ≠ (x, y) → l1._field_ptr._field a b = l._field_ptr._field a b) →
      l1.activeCellSum x y = l.activeCellSum x y := by
    intro l1 h1 h2 hagree
    have hsame : neighbourCells l1._field_ptr x y = neighbourCells l._field_ptr x y := by
      simp only [neighbourCells, Field.normalizeX, Field.normalizeY, h1, h2]
    rw [activeCellSum_countP l1, activeCellSum_countP l, hsame]
    congr 1
    apply List.countP_congr
    intro c hc
    have hne : (c.1, c.2) ≠ (x, y) := fun h => hself (h ▸ hc)
    rw [hagree c.1 c.2 hne]
  refine ⟨hnodup, hlen, hself, hrange, activeCellSum_countP l x y, ?_, ?_, hgen, ?_⟩
  · rw [activeCellSum_countP]
    omega
  · rw [activeCellSum_countP]
    omega
  · intro v
    apply hgen (Logic.mk (l._field_ptr.setAt x y v) l.ops_q l.b l.s) rfl rfl
    intro a b hab
    show store l._field_ptr._field (l._field_ptr.normalizeX x false)
      (l._field_ptr.normalizeY y) v a b = l._field_ptr._field a b
    rw [normalizeX_false _ _ (by omega), normalizeY_eq _ _ (by omega),
      Int.emod_eq_of_lt hx0 hx, Int.emod_eq_of_lt hy0 hy]
    unfold store
    rw [if_neg]
    intro h
    exact hab (Prod.ext h.1 h.2)

/-- C19 on a 3 x 3 field whose only live cell is the centre `(1, 1)`, at that cell. -/
theorem activeCellSum_neighbours_witness :
    (neighbourCells (Logic.createBS (Field.createField 3 3
        (fun a b => decide (a = 1 ∧ b = 1))) 3 23)._field_ptr 1 1).Nodup ∧
    (1, 1) ∉ neighbourCells (Logic.createBS (Field.createField 3 3
        (fun a b => decide (a = 1 ∧ b = 1))) 3 23)._field_ptr 1 1 ∧
    (Logic.createBS (Field.createField 3 3 (fun a b => decide (a = 1 ∧ b = 1)))
        3 23).activeCellSum 1 1 ≤ 8 :=
  ⟨(activeCellSum_neighbours (Logic.createBS (Field.createField 3 3
      (fun a b => decide (a = 1 ∧ b = 1))) 3 23) (by decide) (by decide) 1 1
      (by decide) (by decide) (by decide) (by decide)).1,
   (activeCellSum_neighbours (Logic.createBS (Field.createField 3 3
      (fun a b => decide (a = 1 ∧ b = 1))) 3 23) (by decide) (by decide) 1 1
      (by decide) (by decide) (by decide) (by decide)).2.2.1,
   (activeCellSum_neighbours (Logic.createBS (Field.createField 3 3
      (fun a b => decide (a = 1 ∧ b = 1))) 3 23) (by decide) (by decide) 1 1
      (by decide) (by decide) (by decide) (by decide)).2.2.2.2.2.2.1⟩

/-! ## The scan order -/

theorem Field.eq_of_parts (f g : Field) (hn : f.n = g.n) (hm : f.m = g.m)
    (hfield : f._field = g._field) : f = g := by
  cases f
  cases g
  simp only [Field.mk.injEq]
  exact ⟨hn, hm, hfield⟩

/-- Applying a queue does not touch the storage outside `[0,n) x [0,m)`. -/
theorem applyLoop_field_outside (a b : Int) (ops : List CellOp) :
    ∀ f : Field, 0 < f.n → 0 < f.m → ¬(0 ≤ a ∧ a < f.n ∧ 0 ≤ b ∧ b < f.m) →
      (applyLoop ops f)._field a b = f._field a b := by
  induction ops with
  | nil => intro f _ _ _; rfl
  | cons op rest ih =>
    intro f hn hm hout
    rw [applyLoop, ih (f.setAt op.x op.y op.val) hn hm hout, setAt_field f hn hm]
    unfold store
    rw [if_neg]
    rintro ⟨rfl, rfl⟩
    exact hout ⟨Int.emod_nonneg _ (ne_of_gt hn), Int.emod_lt_of_pos _ hn,
      Int.emod_nonneg _ (ne_of_gt hm), Int.emod_lt_of_pos _ hm⟩

theorem field_eq_getAt (f : Field) (hn : 0 < f.n) (hm : 0 < f.m) (a b : Int)
    (ha0 : 0 ≤ a) (ha : a < f.n) (hb0 : 0 ≤ b) (hb : b < f.m) :
    f._field a b = f.getAt a b := by
  rw [getAt_eq f hn hm, Int.emod_eq_of_lt ha0 ha, Int.emod_eq_of_lt hb0 hb]

/-- Two queues that agree, through `getAt`, on every stored cell leave the same
field. -/
theorem applyLoop_eq_of_getAt (f : Field) (hn : 0 < f.n) (hm : 0 < f.m)
    (ops1 ops2 : List CellOp)
    (h : ∀ i j : Int, 0 ≤ i → i < f.n → 0 ≤ j → j < f.m →
      (applyLoop ops1 f).getAt i j = (applyLoop ops2 f).getAt i j) :
    applyLoop ops1 f = applyLoop ops2 f := by
  have hn1 : (applyLoop ops1 f).n = f.n := applyLoop_n ops1 f
  have hm1 : (applyLoop ops1 f).m = f.m := applyLoop_m ops1 f
  have hn2 : (applyLoop ops2 f).n = f.n := applyLoop_n ops2 f
  have hm2 : (applyLoop ops2 f).m = f.m := applyLoop_m ops2 f
  apply Field.eq_of_parts _ _ (hn1.trans hn2.symm) (hm1.trans hm2.symm)
  funext a b
  by_cases hin : 0 ≤ a ∧ a < f.n ∧ 0 ≤ b ∧ b < f.m
  · obtain ⟨ha0, ha, hb0, hb⟩ := hin
    rw [field_eq_getAt _ (by omega) (by omega) a b ha0 (by omega) hb0 (by omega),
      field_eq_getAt _ (by omega) (by omega) a b ha0 (by omega) hb0 (by omega)]
    exact h a b ha0 ha hb0 hb
  · rw [applyLoop_field_outside a b ops1 f hn hm hin,
      applyLoop_field_outside a b ops2 f hn hm hin]

/-- Every queue that has the members of the queue that `scanField` builds leaves each
stored cell with the state that the scan computed for it. -/
theorem applyLoop_scan_getAt (l : Logic) (hn : 0 < l._field_ptr.n) (hm : 0 < l._field_ptr.m)
    (hq : l.ops_q = []) (ops : List CellOp) (hmem : ∀ o, o ∈ ops ↔ o ∈ l.scanField.ops_q)
    (i j : Int) (hi0 : 0 ≤ i) (hi : i < l._field_ptr.n) (hj0 : 0 ≤ j)
    (hj : j < l._field_ptr.m) :
    (applyLoop ops l._field_ptr).getAt i j =
      ((l._field_ptr.getAt i j && l.checkS (l.activeCellSum i j)) ||
        l.checkB (l.activeCellSum i j) false) := by
  by_cases hch : ((l._field_ptr.getAt i j && l.checkS (l.activeCellSum i j)) ||
      l.checkB (l.activeCellSum i j) false) = l._field_ptr.getAt i j
  · rw [getAt_applyLoop_of_no_match i j _ l._field_ptr hn hm, hch]
    intro o ho hmatch
    rw [hmem, mem_scanField, hq] at ho
    rcases ho with ho | ⟨a, ha, b, hb, rfl, hne⟩
    · cases ho
    · obtain ⟨rfl, rfl⟩ := scan_coords_eq _ _ i j a b hi0 hi hj0 hj ha hb hmatch
      exact hne hch
  · apply getAt_applyLoop_of_match i j _ _ l._field_ptr hn hm
    · refine ⟨CellOp.mk i j ((l._field_ptr.getAt i j && l.checkS (l.activeCellSum i j)) ||
        l.checkB (l.activeCellSum i j) false), ?_, rfl, rfl⟩
      rw [hmem, mem_scanField]
      refine Or.inr ⟨i.toNat, List.mem_range.mpr (by omega),
        j.toNat, List.mem_range.mpr (by omega), ?_⟩
      have ei : Int.ofNat i.toNat = i := Int.toNat_of_nonneg hi0
      have ej : Int.ofNat j.toNat = j := Int.toNat_of_nonneg hj0
      rw [ei, ej]
      exact ⟨rfl, hch⟩
    · intro o ho hmatch
      rw [hmem, mem_scanField, hq] at ho
      rcases ho with ho | ⟨a, ha, b, hb, rfl, _⟩
      · cases ho
      · obtain ⟨rfl, rfl⟩ := scan_coords_eq _ _ i j a b hi0 hi hj0 hj ha hb hmatch
        rfl

theorem mem_rowMajor (n m : Int) (c : Int × Int) :
    c ∈ rowMajor n m ↔
      ∃ i ∈ List.range n.toNat, ∃ j ∈ List.range m.toNat, c = (Int.ofNat i, Int.ofNat j) := by
  unfold rowMajor
  simp only [List.mem_flatMap, List.mem_map]
  constructor
  · rintro ⟨i, hi, j, hj, rfl⟩
    exact ⟨i, hi, j, hj, rfl⟩
  · rintro ⟨i, hi, j, hj, rfl⟩
    exact ⟨i, hi, j, hj, rfl⟩

/-- The queue of a scan in the order `cells` has the members of the queue of
`scanField` as soon as `cells` has the members of the row-major order. -/
theorem mem_scan_in_order (l : Logic) (cells : List (Int × Int))
    (hcells : ∀ c, c ∈ cells ↔ c ∈ rowMajor l._field_ptr.n l._field_ptr.m) (o : CellOp) :
    o ∈ cells.foldl (fun q c => l.scanCell q c.1 c.2) l.ops_q ↔ o ∈ l.scanField.ops_q := by
  rw [mem_foldl_step _ _ (fun q c o => mem_scanCell l q c.1 c.2 o), mem_scanField]
  constructor
  · rintro (h | ⟨c, hc, hop⟩)
    · exact Or.inl h
    · obtain ⟨i, hi, j, hj, rfl⟩ := (mem_rowMajor _ _ c).mp ((hcells c).mp hc)
      exact Or.inr ⟨i, hi, j, hj, hop⟩
  · rintro (h | ⟨i, hi, j, hj, hop⟩)
    · exact Or.inl h
    · exact Or.inr ⟨(Int.ofNat i, Int.ofNat j),
        (hcells _).mpr ((mem_rowMajor _ _ _).mpr ⟨i, hi, j, hj, rfl⟩), hop⟩

theorem foldl_flatMap_map {β γ : Type} (step : γ → β → γ) (g : Nat → Nat → β)
    (js : List Nat) (rows : List Nat) :
    ∀ q : γ, (rows.flatMap (fun i => js.map (g i))).foldl step q =
      rows.foldl (fun q i => js.foldl (fun q j => step q (g i j)) q) q := by
  induction rows with
  | nil => intro q; rfl
  | cons i rest ih =>
    intro q
    rw [List.flatMap_cons, List.foldl_append, List.foldl_cons, ih, List.foldl_map]

/-- The tick with an explicit scan order is `Tick` when the order is the row-major one. -/
theorem TickInOrder_rowMajor (l : Logic) :
    l.TickInOrder (rowMajor l._field_ptr.n l._field_ptr.m) = l.Tick := by
  unfold Logic.TickInOrder Logic.Tick Logic.scanField rowMajor Field.getN Field.getM
  simp only []
  rw [foldl_flatMap_map (fun q c => l.scanCell q c.1 c.2)
    (fun i j => (Int.ofNat i, Int.ofNat j))]

theorem TickInOrder_eq_Tick (l : Logic) (hn : 0 < l._field_ptr.n) (hm : 0 < l._field_ptr.m)
    (hq : l.ops_q = []) (cells : List (Int × Int))
    (hcells : ∀ c, c ∈ cells ↔ c ∈ rowMajor l._field_ptr.n l._field_ptr.m) :
    l.TickInOrder cells = l.Tick := by
  have hfield : applyLoop (cells.foldl (fun q c => l.scanCell q c.1 c.2) l.ops_q) l._field_ptr =
      applyLoop l.scanField.ops_q l._field_ptr := by
    apply applyLoop_eq_of_getAt _ hn hm
    intro i j hi0 hi hj0 hj
    rw [applyLoop_scan_getAt l hn hm hq _ (mem_scan_in_order l cells hcells) i j hi0 hi hj0 hj,
      applyLoop_scan_getAt l hn hm hq _ (fun _ => Iff.rfl) i j hi0 hi hj0 hj]
  show Logic.mk (applyLoop (cells.foldl (fun q c => l.scanCell q c.1 c.2) l.ops_q)
    l._field_ptr) [] l.b l.s = Logic.mk (applyLoop l.scanField.ops_q l._field_ptr) [] l.b l.s
  rw [hfield]

theorem TickApplying_eq_Tick (l : Logic) (hn : 0 < l._field_ptr.n) (hm : 0 < l._field_ptr.m)
    (hq : l.ops_q = []) (ops : List CellOp) (hops : ∀ o, o ∈ ops ↔ o ∈ l.scanField.ops_q) :
    l.TickApplying ops = l.Tick := by
  have hfield : applyLoop ops l._field_ptr = applyLoop l.scanField.ops_q l._field_ptr := by
    apply applyLoop_eq_of_getAt _ hn hm
    intro i j hi0 hi hj0 hj
    rw [applyLoop_scan_getAt l hn hm hq _ hops i j hi0 hi hj0 hj,
      applyLoop_scan_getAt l hn hm hq _ (fun _ => Iff.rfl) i j hi0 hi hj0 hj]
  show Logic.mk (applyLoop ops l._field_ptr) [] l.b l.s =
    Logic.mk (applyLoop l.scanField.ops_q l._field_ptr) [] l.b l.s
  rw [hfield]

/-- C15: on a field with `n, m > 0`, for every grid and rule, the state that `Tick`
leaves (entered with the empty queue) is the state left when the cells are scanned in
the reverse of the row-major order, or in any permutation of it, and also when the
queue of the row-major scan is applied in reverse or in any permuted order. -/
theorem Tick_order_independent (l : Logic) (hn : 0 < l._field_ptr.n)
    (hm : 0 < l._field_ptr.m) (hq : l.ops_q = []) :
    l.TickInOrder (rowMajor l._field_ptr.n l._field_ptr.m) = l.Tick ∧
    l.TickInOrder (rowMajor l._field_ptr.n l._field_ptr.m).reverse = l.Tick ∧
    (∀ cells : List (Int × Int), cells.Perm (rowMajor l._field_ptr.n l._field_ptr.m) →
      l.TickInOrder cells = l.Tick) ∧
    l.TickApplying l.scanField.ops_q = l.Tick ∧
    l.TickApplying l.scanField.ops_q.reverse = l.Tick ∧
    (∀ ops : List CellOp, ops.Perm l.scanField.ops_q → l.TickApplying ops = l.Tick) := by
  refine ⟨TickInOrder_rowMajor l, ?_, ?_, rfl, ?_, ?_⟩
  · exact TickInOrder_eq_Tick l hn hm hq _ (fun c => List.mem_reverse)
  · intro cells hperm
    exact TickInOrder_eq_Tick l hn hm hq _ (fun c => hperm.mem_iff)
  · exact TickApplying_eq_Tick l hn hm hq _ (fun o => List.mem_reverse)
  · intro ops hperm
    exact TickApplying_eq_Tick l hn hm hq _ (fun o => hperm.mem_iff)

/-- C15 on a 5 x 5 field holding the blinker `(2,1), (2,2), (2,3)` with the rule
B3/S23: the reverse scan and the reversed queue leave what `Tick` leaves. -/
theorem Tick_order_independent_witness :
    (Logic.createBS (Field.createField 5 5 (fun a b => decide (a = 2 ∧ 1 ≤ b ∧ b ≤ 3)))
        3 23).TickInOrder
      (rowMajor (Logic.createBS (Field.createField 5 5
          (fun a b => decide (a = 2 ∧ 1 ≤ b ∧ b ≤ 3))) 3 23)._field_ptr.n
        (Logic.createBS (Field.createField 5 5
          (fun a b => decide (a = 2 ∧ 1 ≤ b ∧ b ≤ 3))) 3 23)._field_ptr.m).reverse =
      (Logic.createBS (Field.createField 5 5 (fun a b => decide (a = 2 ∧ 1 ≤ b ∧ b ≤ 3)))
        3 23).Tick ∧
    (Logic.createBS (Field.createField 5 5 (fun a b => decide (a = 2 ∧ 1 ≤ b ∧ b ≤ 3)))
        3 23).TickApplying
      (Logic.createBS (Field.createField 5 5 (fun a b => decide (a = 2 ∧ 1 ≤ b ∧ b ≤ 3)))
        3 23).scanField.ops_q.reverse =
      (Logic.createBS (Field.createField 5 5 (fun a b => decide (a = 2 ∧ 1 ≤ b ∧ b ≤ 3)))
        3 23).Tick :=
  ⟨(Tick_order_independent (Logic.createBS (Field.createField 5 5
      (fun a b => decide (a = 2 ∧ 1 ≤ b ∧ b ≤ 3))) 3 23) (by decide) (by decide) rfl).2.1,
   (Tick_order_independent (Logic.createBS (Field.createField 5 5
      (fun a b => decide (a = 2 ∧ 1 ≤ b ∧ b ≤ 3))) 3 23) (by decide) (by decide) rfl).2.2.2.2.1⟩

/-! ## The blinker -/

theorem checkB_three (l : Logic) (c : Int) (hb : l.b = 3) :
    l.checkB c false = true ↔ c = 3 := by
  rw [checkB_pos l c false (by simp [hb])]
  simp only [Bool.false_eq_true, if_false, hb]
  rw [show (3 : Int).toNat = 3 from rfl, show Nat.digits 10 3 = [3] by norm_num]
  simp only [List.mem_singleton, exists_eq_left]
  constructor
  · intro h; omega
  · intro h; omega

theorem checkS_twentythree (l : Logic) (c : Int) (hs : l.s = 23) :
    l.checkS c = true ↔ c = 2 ∨ c = 3 := by
  unfold Logic.checkS
  rw [checkB_pos l c true (by simp [hs])]
  simp only [if_true, hs]
  rw [show (23 : Int).toNat = 23 from rfl, show Nat.digits 10 23 = [3, 2] by norm_num]
  constructor
  · rintro ⟨d, hd, rfl⟩
    simp only [List.mem_cons, List.mem_singleton, List.not_mem_nil, or_false] at hd
    omega
  · rintro (h | h)
    · exact ⟨2, by simp, by omega⟩
    · exact ⟨3, by simp, by omega⟩

theorem indicator_pin (g : Bool) (L : Prop) (h : g = true ↔ L) :
    (L → (if g = true then (1 : Int) else 0) = 1) ∧
    (¬L → (if g = true then (1 : Int) else 0) = 0) := by
  constructor
  · intro hL
    rw [if_pos (h.mpr hL)]
  · intro hL
    rw [if_neg (fun hg => hL (h.mp hg))]

/-- On a grid that holds the blinker `(0,1), (1,1), (2,1)` and nothing else, the cell
read at a position at most one step outside the range. -/
theorem blinker_near (f : Field) (hn : 5 ≤ f.n) (hm : 5 ≤ f.m)
    (hgrid : ∀ i j : Int, 0 ≤ i → i < f.n → 0 ≤ j → j < f.m →
      (f.getAt i j = true ↔ (j = 1 ∧ (i = 0 ∨ i = 1 ∨ i = 2))))
    (a b : Int) (ha1 : -1 ≤ a) (ha2 : a ≤ f.n) (hb1 : -1 ≤ b) (hb2 : b ≤ f.m) :
    f.getAt a b = true ↔ (b = 1 ∧ ((0 ≤ a ∧ a ≤ 2) ∨ a = f.n)) := by
  have hn0 : 0 < f.n := by omega
  have hm0 : 0 < f.m := by omega
  obtain ⟨hacase, ha0, halt⟩ := emod_near a f.n hn0 (by omega) (by omega)
  obtain ⟨hbcase, hb0, hblt⟩ := emod_near b f.m hm0 (by omega) (by omega)
  have hwrap : f.getAt a b = f.getAt (a % f.n) (b % f.m) := by
    rw [getAt_eq f hn0 hm0, getAt_eq f hn0 hm0, Int.emod_emod, Int.emod_emod]
  rw [hwrap, hgrid _ _ ha0 halt hb0 hblt]
  generalize a % f.n = am at *
  generalize b % f.m = bm at *
  omega

/-- C16: on a field with `n >= 5` and `m >= 5` and the rule `b = 3`, `s = 23`, when
exactly the cells `(0,1)`, `(1,1)`, `(2,1)` are alive, then after one `Tick` (entered
with the empty queue) exactly the cells `(1,0)`, `(1,1)`, `(1,2)` are alive and all
others are dead. -/
theorem blinker_tick (l : Logic) (hn : 5 ≤ l._field_ptr.n) (hm : 5 ≤ l._field_ptr.m)
    (hb : l.b = 3) (hs : l.s = 23) (hq : l.ops_q = [])
    (hgrid : ∀ i j : Int, 0 ≤ i → i < l._field_ptr.n → 0 ≤ j → j < l._field_ptr.m →
      (l._field_ptr.getAt i j = true ↔ (j = 1 ∧ (i = 0 ∨ i = 1 ∨ i = 2)))) :
    ∀ i j : Int, 0 ≤ i → i < l._field_ptr.n → 0 ≤ j → j < l._field_ptr.m →
      (l.Tick._field_ptr.getAt i j = true ↔ (i = 1 ∧ (j = 0 ∨ j = 1 ∨ j = 2))) := by
  intro i j hi0 hi hj0 hj
  rw [Tick_getAt l (by omega) (by omega) hq i j hi0 hi hj0 hj]
  have near := blinker_near l._field_ptr hn hm hgrid
  have hsum : l.activeCellSum i j =
      (if l._field_ptr.getAt (i - 1) (j - 1) = true then (1 : Int) else 0) +
      (if l._field_ptr.getAt (i - 1) j = true then (1 : Int) else 0) +
      (if l._field_ptr.getAt (i - 1) (j + 1) = true then (1 : Int) else 0) +
      (if l._field_ptr.getAt i (j - 1) = true then (1 : Int) else 0) +
      (if l._field_ptr.getAt i (j + 1) = true then (1 : Int) else 0) +
      (if l._field_ptr.getAt (i + 1) (j - 1) = true then (1 : Int) else 0) +
      (if l._field_ptr.getAt (i + 1) j = true then (1 : Int) else 0) +
      (if l._field_ptr.getAt (i + 1) (j + 1) = true then (1 : Int) else 0) := by
    have h1 : i - 1 ≠ i := by omega
    have h2 : i + 1 ≠ i := by omega
    have h3 : j - 1 ≠ j := by omega
    have h4 : j + 1 ≠ j := by omega
    simp only [Logic.activeCellSum, List.foldl_cons, List.foldl_nil, h1, h2, h3, h4,
      false_and, and_false, and_self, if_true, if_false]
    ring
  rw [hsum]
  simp only [Bool.or_eq_true, Bool.and_eq_true, checkB_three l _ hb, checkS_twentythree l _ hs,
    hgrid i j hi0 hi hj0 hj]
  have p1 := indicator_pin _ _ (near (i - 1) (j - 1) (by omega) (by omega) (by omega) (by omega))
  have p2 := indicator_pin _ _ (near (i - 1) j (by omega) (by omega) (by omega) (by omega))
  have p3 := indicator_pin _ _ (near (i - 1) (j + 1) (by omega) (by omega) (by omega) (by omega))
  have p4 := indicator_pin _ _ (near i (j - 1) (by omega) (by omega) (by omega) (by omega))
  have p5 := indicator_pin _ _ (near i (j + 1) (by omega) (by omega) (by omega) (by omega))
  have p6 := indicator_pin _ _ (near (i + 1) (j - 1) (by omega) (by omega) (by omega) (by omega))
  have p7 := indicator_pin _ _ (near (i + 1) j (by omega) (by omega) (by omega) (by omega))
  have p8 := indicator_pin _ _ (near (i + 1) (j + 1) (by omega) (by omega) (by omega) (by omega))
  clear near hgrid hsum
  have hjc : j = 0 ∨ j = 1 ∨ j = 2 ∨ 3 ≤ j := by omega
  have hic : i = 0 ∨ i = 1 ∨ i = 2 ∨ i = 3 ∨ (4 ≤ i ∧ i + 1 < l._field_ptr.n) ∨
      (4 ≤ i ∧ i + 1 = l._field_ptr.n) := by omega
  rcases hjc with hjv | hjv | hjv | hjv <;> rcases hic with hiv | hiv | hiv | hiv | hiv | hiv
  all_goals
    first | rw [p1.1 (by omega)] | rw [p1.2 (by omega)]
    first | rw [p2.1 (by omega)] | rw [p2.2 (by omega)]
    first | rw [p3.1 (by omega)] | rw [p3.2 (by omega)]
    first | rw [p4.1 (by omega)] | rw [p4.2 (by omega)]
    first | rw [p5.1 (by omega)] | rw [p5.2 (by omega)]
    first | rw [p6.1 (by omega)] | rw [p6.2 (by omega)]
    first | rw [p7.1 (by omega)] | rw [p7.2 (by omega)]
    first | rw [p8.1 (by omega)] | rw [p8.2 (by omega)]
    clear p1 p2 p3 p4 p5 p6 p7 p8
    omega

/-- C16 on the program's 20 x 60 field: with the blinker `(0,1), (1,1), (2,1)` and the
rule B3/S23, the cell `(1, 0)` is alive after one `Tick` and the cell `(0, 1)` is not. -/
theorem blinker_tick_witness :
    (Logic.createBS (Field.createField 20 60
        (fun a b => decide (b = 1 ∧ 0 ≤ a ∧ a ≤ 2))) 3 23).Tick._field_ptr.getAt 1 0 = true ∧
    ¬((Logic.createBS (Field.createField 20 60
        (fun a b => decide (b = 1 ∧ 0 ≤ a ∧ a ≤ 2))) 3 23).Tick._field_ptr.getAt 0 1 = true) :=
  ⟨(blinker_tick (Logic.createBS (Field.createField 20 60
        (fun a b => decide (b = 1 ∧ 0 ≤ a ∧ a ≤ 2))) 3 23)
      (by decide) (by decide) rfl rfl rfl
      (fun i j hi0 hi hj0 hj => by
        rw [getAt_eq _ (by decide) (by decide), Int.emod_eq_of_lt hi0 hi,
          Int.emod_eq_of_lt hj0 hj]
        simp only [Logic.createBS, Field.createField, decide_eq_true_eq]
        omega)
      1 0 (by decide) (by decide) (by decide) (by decide)).mpr ⟨rfl, Or.inl rfl⟩,
   fun h => absurd ((blinker_tick (Logic.createBS (Field.createField 20 60
        (fun a b => decide (b = 1 ∧ 0 ≤ a ∧ a ≤ 2))) 3 23)
      (by decide) (by decide) rfl rfl rfl
      (fun i j hi0 hi hj0 hj => by
        rw [getAt_eq _ (by decide) (by decide), Int.emod_eq_of_lt hi0 hi,
          Int.emod_eq_of_lt hj0 hj]
        simp only [Logic.createBS, Field.createField, decide_eq_true_eq]
        omega)
      0 1 (by decide) (by decide) (by decide) (by decide)).mp h).1 (by decide)⟩

/-! ## The queue between calls -/

/-- Where the queue is empty after a call: after every `Tick`, after `LoadDefault` and
after a `LoadPreset` that found no file when it was empty before, and after every
`LoadPreset` that returns. -/
theorem ops_q_after_call (l : Logic) (p : PresetParser)
    (disk : List Char → Option (List (List Char))) (cout : List Warning) :
    l.Tick.ops_q = [] ∧
    (l.ops_q = [] → l.LoadDefault.ops_q = []) ∧
    (∀ w, l.LoadPreset p disk cout = .returned w → w.logic.ops_q = []) ∧
    (l.ops_q = [] → disk p._inputFile = none →
      (l.LoadPreset p disk cout).state.logic.ops_q = []) := by
  refine ⟨rfl, fun h => h, ?_, ?_⟩
  · intro w hw
    unfold Logic.LoadPreset at hw
    simp only [] at hw
    split at hw
    · cases hw
    · injection hw with hw
      rw [← hw]
      rfl
  · intro hq hmiss
    simp only [Logic.LoadPreset, PresetParser.Parse, hmiss, Outcome.state]
    exact hq

/-- C20, the code at a preset file with a cell line followed by a bare `#N`: starting
from a newly constructed `Logic` on a 5 x 5 field of dead cells, `LoadPreset` fails with
`std::out_of_range` and the queue still holds the operation `(1, 1, true)`; the grid is
all dead, yet the next `Tick` applies the stale operation and leaves `(1, 1)` alive,
while `Tick` from the same grid and rule with an empty queue leaves it dead. -/
theorem stale_queue_after_failed_load :
    ((Logic.createBS (Field.createField 5 5 (fun _ _ => false)) 3 23).LoadPreset
        (PresetParser.create "preset.txt".toList 0 0)
        (fun _ => some ["Name".toList, "1 1".toList, "#N".toList]) []).thrown =
      some Exn.out_of_range ∧
    ((Logic.createBS (Field.createField 5 5 (fun _ _ => false)) 3 23).LoadPreset
        (PresetParser.create "preset.txt".toList 0 0)
        (fun _ => some ["Name".toList, "1 1".toList, "#N".toList]) []).state.logic.ops_q =
      [CellOp.mk 1 1 true] ∧
    ((Logic.createBS (Field.createField 5 5 (fun _ _ => false)) 3 23).LoadPreset
        (PresetParser.create "preset.txt".toList 0 0)
        (fun _ => some ["Name".toList, "1 1".toList, "#N".toList])
        []).state.logic._field_ptr.getAt 1 1 = false ∧
    ((Logic.createBS (Field.createField 5 5 (fun _ _ => false)) 3 23).LoadPreset
        (PresetParser.create "preset.txt".toList 0 0)
        (fun _ => some ["Name".toList, "1 1".toList, "#N".toList])
        []).state.logic.Tick._field_ptr.getAt 1 1 = true ∧
    (Logic.createBS
        ((Logic.createBS (Field.createField 5 5 (fun _ _ => false)) 3 23).LoadPreset
          (PresetParser.create "preset.txt".toList 0 0)
          (fun _ => some ["Name".toList, "1 1".toList, "#N".toList])
          []).state.logic._field_ptr
        3 23).Tick._field_ptr.getAt 1 1 = false := by
  refine ⟨rfl, by decide, by decide, by decide, by decide⟩

end GOL
